import Mathlib

/-!
Verification development for the VibeSync snapshot capture/restore engine
(`src/extension.ts`).  The source ships two revisions of the engine in one
file: the primary revision (delete-then-copy restore with optional batching)
and an older staged revision (copy to a staging directory, remove top-level
workspace entries, copy back).  Both are embedded below where a claim refers
to them.

Modelling conventions:
* A directory tree is the inductive `FSTree`; entry lists keep their on-disk
  order.  File contents are plain strings (byte-identity is string equality).
* JavaScript `String.prototype.includes(pat)` is `substr pat s`, and
  `path.join` on POSIX-style segments is `joinPath`.
* Filesystem faults are not modelled (the fault-free filesystem); structural
  copy failures (destination is a directory, a file blocks the parent chain)
  are modelled exactly, via `Option`-valued writes.
* The manifest JSON file is modelled as a file entry named
  `.vibesync-manifest.json` plus a structured `Manifest` value carrying the
  fields the engine actually reads back (`ignorePatterns`); `none` stands for
  an absent or unparsable manifest.
-/

/-- Models JavaScript `s.includes(pat)`: `pat` occurs contiguously in `s`. -/
def substr (pat s : String) : Bool :=
  decide (pat.data <:+: s.data)

/-- Models `path.join(root, seg₁, …, segₙ)` with POSIX separators, as the
walker builds paths: each segment is appended after a `/`. -/
def joinPath (root : String) (p : List String) : String :=
  p.foldl (fun acc seg => acc ++ "/" ++ seg) root

/-- Models `path.relative(base, file)` for a file below `base`: the relative
segments joined by `/` (used by the restore loop's manifest-name skip). -/
def relString (p : List String) : String :=
  match p with
  | [] => ""
  | [s] => s
  | s :: rest => s ++ "/" ++ relString rest

mutual
/-- A directory tree: a regular file with its byte content, or a directory
with an ordered entry list (the order `fs.readdir` reports). -/
inductive FSTree where
  | file : String → FSTree
  | dir : Entries → FSTree

/-- Ordered directory entries: name plus subtree. -/
inductive Entries where
  | nil : Entries
  | cons : String → FSTree → Entries → Entries
end

mutual
/-- Resolves a path to a regular file's content (first entry wins on a
duplicated name, as a lookup by name would). -/
def FSTree.lookup : FSTree → List String → Option String
  | .file c, [] => some c
  | .file _, _ :: _ => none
  | .dir _, [] => none
  | .dir es, n :: p => Entries.lookupIn es n p

/-- Helper of `FSTree.lookup` on entry lists. -/
def Entries.lookupIn : Entries → String → List String → Option String
  | .nil, _, _ => none
  | .cons n t rest, m, p => if n = m then t.lookup p else Entries.lookupIn rest m p
end

/-- Membership of an entry name in an entry list. -/
def Entries.hasName : Entries → String → Bool
  | .nil, _ => false
  | .cons n _ rest, m => n = m || rest.hasName m

mutual
/-- Well-formedness: entry names are distinct within each directory, as on a
real filesystem. -/
def FSTree.wf : FSTree → Bool
  | .file _ => true
  | .dir es => es.wfE

/-- Helper of `FSTree.wf`. -/
def Entries.wfE : Entries → Bool
  | .nil => true
  | .cons n t rest => !rest.hasName n && t.wf && rest.wfE
end

mutual
/-- Models `fs.remove(path)` on a tree: deletes the entry at the path (file
or whole subdirectory); a missing path is a no-op, parents are kept. -/
def FSTree.removePath : FSTree → List String → FSTree
  | .file c, _ => .file c
  | .dir es, [] => .dir es
  | .dir es, n :: p => .dir (es.removeIn n p)

/-- Helper of `FSTree.removePath` on entry lists. -/
def Entries.removeIn : Entries → String → List String → Entries
  | .nil, _, _ => .nil
  | .cons n t rest, m, p =>
    if n = m then
      match p with
      | [] => rest
      | q :: qs => .cons n (t.removePath (q :: qs)) rest
    else .cons n t (rest.removeIn m p)
end

/-- The fresh directory/file chain `ensureDirSync` plus the final write
create below a directory that has no entry of the leading name yet. -/
def Entries.freshChain (m : String) : List String → String → Entries
  | [], c => .cons m (.file c) .nil
  | q :: qs, c => .cons m (.dir (Entries.freshChain q qs c)) .nil

mutual
/-- Models `fs.ensureDirSync(dirname(dest))` followed by writing `dest`
(`copyFileSync`, or unlink-then-stream-write — both end states coincide):
creates missing parent directories, replaces an existing file at the path.
Returns `none` exactly when the write fails structurally: the destination
already exists as a directory, or a regular file blocks the parent chain. -/
def FSTree.writePath : FSTree → List String → String → Option FSTree
  | .file _, _, _ => none
  | .dir _, [], _ => none
  | .dir es, n :: p, c =>
    match Entries.writeIn es n p c with
    | some es2 => some (.dir es2)
    | none => none

/-- Helper of `FSTree.writePath` on entry lists. -/
def Entries.writeIn : Entries → String → List String → String → Option Entries
  | .nil, m, qs, c => some (Entries.freshChain m qs c)
  | .cons n t rest, m, [], c =>
    if n = m then
      match t with
      | .file _ => some (.cons n (.file c) rest)
      | .dir _ => none
    else
      match Entries.writeIn rest m [] c with
      | some rest2 => some (.cons n t rest2)
      | none => none
  | .cons n t rest, m, q :: qs, c =>
    if n = m then
      match t with
      | .file _ => none
      | .dir sub =>
        match Entries.writeIn sub q qs c with
        | some sub2 => some (.cons n (.dir sub2) rest)
        | none => none
    else
      match Entries.writeIn rest m (q :: qs) c with
      | some rest2 => some (.cons n t rest2)
      | none => none
end

/-- The hardcoded ignore patterns of `takeSimpleSnapshot` and
`restoreSimpleSnapshot` (source lines 1047-1054, 1261-1268). -/
def defaultIgnorePatterns : List String :=
  ["node_modules", ".git", ".vibesync", "dist", "out", "build"]

/-- The walker's per-entry exclusion test (source lines 730-731):
`entry.name === pattern || entryPath.includes(pattern)`, OR-ed over the
pattern list, where `entryPath` is the absolute joined path of the entry. -/
def entryExcluded (pats : List String) (name entryPath : String) : Bool :=
  pats.any fun pat => name = pat || substr pat entryPath

mutual
/-- Models `getFilesRecursively(dirPath, ignorePatterns, results, d, maxD)`
(source lines 710-753).  `root` is the walked root directory's absolute path
and `rel` the segments from `root` to the current directory, so the current
`dirPath` is `joinPath root rel`; the function returns the relative segment
paths of the enumerated files (the source returns their absolute joined
paths, recovered as `joinPath root`).  Recursion past `maxD` is cut off. -/
def getFilesRecursively (root : String) (pats : List String) :
    FSTree → List String → Nat → Nat → List (List String)
  | .file _, _, _, _ => []
  | .dir es, rel, d, maxD =>
    if d > maxD then [] else walkEntries root pats es rel d maxD

/-- Helper of `getFilesRecursively`: the `for (const entry of entries)` loop. -/
def walkEntries (root : String) (pats : List String) :
    Entries → List String → Nat → Nat → List (List String)
  | .nil, _, _, _ => []
  | .cons n t rest, rel, d, maxD =>
    (if entryExcluded pats n (joinPath root (rel ++ [n])) then []
     else
       match t with
       | .file _ => [rel ++ [n]]
       | .dir sub => getFilesRecursively root pats (.dir sub) (rel ++ [n]) (d + 1) maxD)
    ++ walkEntries root pats rest rel d maxD
end

/-- The manifest file's name inside a snapshot content directory. -/
def manifestFileName : String := ".vibesync-manifest.json"

/-- The incremental-base marker name the restore also skips. -/
def vibesyncBaseName : String := ".vibesync-base"

/-- The fields of the manifest JSON that the engine reads back on restore.
`ignorePatterns = none` models a manifest whose `ignorePatterns` field is
missing or not an array (source line 1292 checks `Array.isArray`). -/
structure Manifest where
  id : String
  name : String
  timestamp : Nat
  ignorePatterns : Option (List String)
deriving DecidableEq

/-- A snapshot content directory: its file tree (which contains the manifest
file entry) together with the parse of `.vibesync-manifest.json` (`none` when
the file is absent or unreadable JSON). -/
structure SnapState where
  files : FSTree
  manifest : Option Manifest

/-- Observable capture events, for phase-ordering claims. -/
inductive CapEvent where
  | manifestWrite : CapEvent
  | fileCopy : List String → CapEvent
deriving DecidableEq

/-- Result of a capture. -/
structure CaptureResult where
  snap : SnapState
  events : List CapEvent
  copied : Nat
  errors : Nat

/-- The capture copy loop (source lines 1124-1150): for each walked file,
`ensureDirSync(dirname(dest))` then `copyFileSync` into the snapshot tree;
a throwing copy is counted in `errorCount` and the loop continues.  Every
attempted file emits a `fileCopy` event.  Returns the final snapshot tree,
events in order, and the `copiedCount`/`errorCount` tallies. -/
def captureCopy (T : FSTree) : List (List String) → FSTree →
    FSTree × List CapEvent × Nat × Nat
  | [], s => (s, [], 0, 0)
  | p :: ps, s =>
    match T.lookup p with
    | none =>
      let r := captureCopy T ps s
      (r.1, .fileCopy p :: r.2.1, r.2.2.1, r.2.2.2 + 1)
    | some c =>
      match s.writePath p c with
      | some s2 =>
        let r := captureCopy T ps s2
        (r.1, .fileCopy p :: r.2.1, r.2.2.1 + 1, r.2.2.2)
      | none =>
        let r := captureCopy T ps s
        (r.1, .fileCopy p :: r.2.1, r.2.2.1, r.2.2.2 + 1)

/-- Models `takeSimpleSnapshot` (source lines 1010-1183), after its guards:
combines the hardcoded ignore patterns with the configured custom ones,
creates the snapshot directory, writes the manifest file FIRST (source
line 1094), then walks the workspace and copies every enumerated file into
the snapshot tree.  `W` is the workspace root's absolute path, `T` the
workspace tree, `idStr`/`nameStr`/`ts` the generated id, name and timestamp. -/
def takeSimpleSnapshot (W : String) (custom : List String)
    (idStr nameStr : String) (ts : Nat) (T : FSTree) : CaptureResult :=
  let allIgnorePatterns := defaultIgnorePatterns ++ custom
  let snap0 : FSTree := .dir .nil
  let snap1 := (snap0.writePath [manifestFileName] "manifest-json").getD snap0
  let allFiles := getFilesRecursively W allIgnorePatterns T [] 0 100
  let r := captureCopy T allFiles snap1
  { snap := { files := r.1,
              manifest := some { id := idStr, name := nameStr, timestamp := ts,
                                 ignorePatterns := some allIgnorePatterns } },
    events := .manifestWrite :: r.2.1,
    copied := r.2.2.1,
    errors := r.2.2.2 }

/-- The restore's deletion phase (source lines 1411-1428): `fs.remove` each
enumerated workspace file in order; returns the tree and `deletedCount`. -/
def deletePhase : List (List String) → FSTree → FSTree × Nat
  | [], t => (t, 0)
  | p :: ps, t =>
    let r := deletePhase ps (t.removePath p)
    (r.1, r.2 + 1)

/-- The restore's copy phase (source lines 1462-1538, identical body in batch
and non-batch mode): for each snapshot file, skip it when its relative path
is the manifest or base marker, otherwise stream-copy it over the workspace
path with retries; a permanently failing copy increments `copyErrors`.
Returns the tree and the `copiedCount`/`copyErrors` tallies. -/
def copyPhase (snapT : FSTree) : List (List String) → FSTree →
    FSTree × Nat × Nat
  | [], t => (t, 0, 0)
  | p :: ps, t =>
    if relString p = manifestFileName || relString p = vibesyncBaseName then
      copyPhase snapT ps t
    else
      match snapT.lookup p with
      | none =>
        let r := copyPhase snapT ps t
        (r.1, r.2.1, r.2.2 + 1)
      | some c =>
        match t.writePath p c with
        | some t2 =>
          let r := copyPhase snapT ps t2
          (r.1, r.2.1 + 1, r.2.2)
        | none =>
          let r := copyPhase snapT ps t
          (r.1, r.2.1, r.2.2 + 1)

/-- Result of a restore. -/
structure RestoreResult where
  ok : Bool
  tree : FSTree
  deleted : Nat
  copied : Nat
  copyErrors : Nat

/-- Models the primary `restoreSimpleSnapshot` (source lines 1188-1611),
after the cooldown/in-flight guards and the user confirmation.  `W` is the
workspace root path, `vibeDir` the snapshot store path, `store` the on-disk
store (id ↦ content directory; `none` models a missing directory), `index`
the in-memory `workspaceStateMetadata` id list — which this revision never
consults.  Steps: resolve the content directory (missing → error, line 1217);
read the manifest for metadata (unreadable/absent → error, lines 1226-1239);
adopt the manifest's `ignorePatterns` over the caller's when the field is an
array (lines 1292-1296); enumerate snapshot and workspace files; delete the
workspace files; copy the snapshot files back.  Batch and non-batch modes
process the same file list in the same order, so they share `copyPhase`. -/
def restoreSimpleSnapshot (W vibeDir : String) (custom : List String)
    (index : List String) (store : String → Option SnapState)
    (id : String) (live : FSTree) : RestoreResult :=
  let _ := index
  match store id with
  | none => { ok := false, tree := live, deleted := 0, copied := 0, copyErrors := 0 }
  | some snap =>
    match snap.manifest with
    | none => { ok := false, tree := live, deleted := 0, copied := 0, copyErrors := 0 }
    | some mani =>
      let allIgnorePatterns :=
        match mani.ignorePatterns with
        | some ps => ps
        | none => defaultIgnorePatterns ++ custom
      let snapshotDir := joinPath vibeDir [id]
      let snapshotFiles :=
        getFilesRecursively snapshotDir [manifestFileName, vibesyncBaseName]
          snap.files [] 0 100
      let workspaceFiles := getFilesRecursively W allIgnorePatterns live [] 0 100
      let del := deletePhase workspaceFiles live
      let cp := copyPhase snap.files snapshotFiles del.1
      { ok := true, tree := cp.1, deleted := del.2,
        copied := cp.2.1, copyErrors := cp.2.2 }

/-- Models the batch-size computation of the batch-mode restore (source
lines 1386-1391): `batchSize = 100; if (n > 5000) 50; else if (n > 10000) 20`. -/
def restoreBatchSize (snapshotFileCount : Nat) : Nat :=
  let batchSize := 100
  if snapshotFileCount > 5000 then 50
  else if snapshotFileCount > 10000 then 20
  else batchSize

/-- The engine's concurrency state (source lines 163-166): two separate
in-flight flags and the timestamp of the last operation. -/
structure SyncState where
  isRestoreInProgress : Bool
  isSaveInProgress : Bool
  lastOperation : Nat
deriving DecidableEq

/-- The cooldown interval in milliseconds (source line 166). -/
def OPERATION_COOLDOWN_MS : Nat := 2000

/-- Models the guard section of `takeSimpleSnapshot` (source lines 1023-1039):
reject within the cooldown window, then reject when a save is already in
flight; otherwise mark the save in flight and stamp `lastOperation`.
Returns whether the capture starts, and the successor state. -/
def trySave (st : SyncState) (now : Nat) : Bool × SyncState :=
  if now - st.lastOperation < OPERATION_COOLDOWN_MS then (false, st)
  else if st.isSaveInProgress then (false, st)
  else (true, { st with isSaveInProgress := true, lastOperation := now })

/-- Models the guard section of `restoreSimpleSnapshot` (source lines
1196-1212): reject within the cooldown window, then reject when a restore is
already in flight; otherwise mark the restore in flight. -/
def tryRestore (st : SyncState) (now : Nat) : Bool × SyncState :=
  if now - st.lastOperation < OPERATION_COOLDOWN_MS then (false, st)
  else if st.isRestoreInProgress then (false, st)
  else (true, { st with isRestoreInProgress := true, lastOperation := now })

/-- The backoff delay of `copyFileWithRetry`/`removeWithRetry` after the
`attempts`-th failure (source line 890): `min(100 * 2^attempts, 2000)`. -/
def copyBackoffDelay (attempts : Nat) : Nat :=
  min (100 * 2 ^ attempts) 2000

/-- Helper of `copyFileWithRetry`: one `while (attempts < maxAttempts)`
iteration per unit of fuel, starting from attempt counter `attempts`.
`fails k` tells whether the (k+1)-th physical copy attempt raises.
Returns (success, attempts performed, delays waited in order). -/
def copyRetryGo (fails : Nat → Bool) (maxAttempts : Nat) :
    Nat → Nat → Bool × Nat × List Nat
  | attempts, 0 => (false, attempts, [])
  | attempts, fuel + 1 =>
    if fails attempts then
      let a2 := attempts + 1
      if maxAttempts ≤ a2 then (false, a2, [])
      else
        let r := copyRetryGo fails maxAttempts a2 fuel
        (r.1, r.2.1, copyBackoffDelay a2 :: r.2.2)
    else (true, attempts + 1, [])

/-- Models `copyFileWithRetry(src, dest, maxAttempts)` (source lines 869-896)
over a failure oracle: ensure the parent directory, copy, and on error retry
after an exponential backoff delay until `maxAttempts` attempts are used;
failure is returned as `false`, never raised. -/
def copyFileWithRetry (fails : Nat → Bool) (maxAttempts : Nat) :
    Bool × Nat × List Nat :=
  copyRetryGo fails maxAttempts 0 maxAttempts

/-- Helper of the restore's stream-based copy helper: one
`for (attempt = 0; attempt <= maxRetries; attempt++)` iteration per unit of
fuel.  A delay of `500 * attempt` precedes every attempt but the first. -/
def streamRetryGo (fails : Nat → Bool) (maxRetries : Nat) :
    Nat → Nat → Bool × Nat × List Nat
  | attempt, 0 => (false, attempt, [])
  | attempt, fuel + 1 =>
    let ds0 : List Nat := if 0 < attempt then [500 * attempt] else []
    if fails attempt then
      if attempt = maxRetries then (false, attempt + 1, ds0)
      else
        let r := streamRetryGo fails maxRetries (attempt + 1) fuel
        (r.1, r.2.1, ds0 ++ r.2.2)
    else (true, attempt + 1, ds0)

/-- Models the stream-based `copyFileWithRetry` closure inside the restore
(source lines 1309-1365): up to `maxRetries + 1` attempts (the loop runs for
`attempt = 0 .. maxRetries` inclusive), a linear `500 * attempt` ms delay
before each retry, unlink-then-stream-write per attempt, failure returned as
`false`. -/
def copyFileWithRetryStream (fails : Nat → Bool) (maxRetries : Nat) :
    Bool × Nat × List Nat :=
  streamRetryGo fails maxRetries 0 (maxRetries + 1)

/-- Outcome of `deleteVibe`. -/
inductive DeleteOutcome where
  | notFound : DeleteOutcome
  | errorShown : DeleteOutcome
  | success : DeleteOutcome
deriving DecidableEq

/-- Models the effectful tail of `deleteVibe` (source lines 649-691), after
the user confirmed: find the record's index (missing → error return); then
`try { if (exists) removeSync(dir); splice(index); saveMetadata() } catch`.
`dirExists` and `removeThrows` inject the filesystem behaviour of
`fs.existsSync`/`fs.removeSync`.  Returns the resulting metadata id list,
whether the metadata file was rewritten, and the reported outcome: when the
directory removal throws, the catch block skips both the splice and the
persist, so the record survives. -/
def deleteVibe (index : List String) (id : String)
    (dirExists removeThrows : Bool) : List String × Bool × DeleteOutcome :=
  if id ∈ index then
    if dirExists && removeThrows then (index, false, .errorShown)
    else (index.erase id, true, .success)
  else (index, false, .notFound)

/-- Finds the subtree of the first entry with the given name. -/
def Entries.findT : Entries → String → Option FSTree
  | .nil, _ => none
  | .cons n t rest, m => if n = m then some t else rest.findT m

/-- Replaces the subtree of the first entry with the given name, or appends a
new entry at the end. -/
def Entries.setEntry : Entries → String → FSTree → Entries
  | .nil, m, u => .cons m u .nil
  | .cons n t rest, m, u =>
    if n = m then .cons n u rest else .cons n t (rest.setEntry m u)

/-- Models `pattern.replace('*', '.*')` — JavaScript `replace` with a string
argument rewrites only the first occurrence. -/
def replaceFirstStar : List Char → List Char
  | [] => []
  | '*' :: rest => '.' :: '*' :: rest
  | c :: rest => c :: replaceFirstStar rest

/-- Fueled interpreter for the regexes this code builds out of glob patterns:
`'.'` matches any character, a postfix `'*'` repeats the preceding atom,
every other character is literal (faithful for patterns free of further
regex metacharacters).  Every step consumes pattern or input, so fuel
`p.length + s.length + 1` is always sufficient. -/
def regexMatchPrefixF : Nat → List Char → List Char → Bool
  | 0, _, _ => false
  | _ + 1, [], _ => true
  | fuel + 1, a :: '*' :: ps, s =>
    regexMatchPrefixF fuel ps s ||
      (match s with
       | [] => false
       | c :: cs => (a = '.' || a = c) && regexMatchPrefixF fuel (a :: '*' :: ps) cs)
  | _ + 1, _ :: _, [] => false
  | fuel + 1, a :: ps, c :: cs => (a = '.' || a = c) && regexMatchPrefixF fuel ps cs

/-- `regexMatchPrefix p s` holds when the pattern matches some prefix of `s`. -/
def regexMatchPrefix (p s : List Char) : Bool :=
  regexMatchPrefixF (p.length + s.length + 1) p s

/-- Models the truthiness of `name.match(regex)` for an unanchored regex:
the pattern matches somewhere inside the input. -/
def regexSearch (p s : List Char) : Bool :=
  (List.range (s.length + 1)).any fun i => regexMatchPrefix p (s.drop i)

/-- The per-entry exclusion test of the older revision's
`simpleCopyDirectory` (source lines 2734-2737): name equality, substring of
the absolute source path, or an unanchored regex built by replacing the
first `*` of the pattern with `.*`. -/
def entryExcludedCopy2 (pats : List String) (name srcPath : String) : Bool :=
  pats.any fun pat =>
    name = pat || substr pat srcPath ||
      regexSearch (replaceFirstStar pat.data) name.data

/-- Models the older revision's `simpleCopyDirectory(source, target, pats)`
(source lines 2709-2785) on the entry lists of source and target: each
non-excluded source file is copied over the target entry of the same name
(failing when the target entry is a directory), each non-excluded source
directory is copied recursively (failing as one unit when a target file of
the same name blocks `ensureDirSync`).  `srcPath` is the absolute path of
the source directory.  Returns the new target entries and the
copied/failed tallies. -/
def copyDirEntries (pats : List String) :
    Entries → Entries → String → Entries × Nat × Nat
  | .nil, dst, _ => (dst, 0, 0)
  | .cons n t rest, dst, srcPath =>
    let entryP := srcPath ++ "/" ++ n
    if entryExcludedCopy2 pats n entryP then
      copyDirEntries pats rest dst srcPath
    else
      match t with
      | .file c =>
        match dst.findT n with
        | some (.dir _) =>
          let r := copyDirEntries pats rest dst srcPath
          (r.1, r.2.1, r.2.2 + 1)
        | _ =>
          let r := copyDirEntries pats rest (dst.setEntry n (.file c)) srcPath
          (r.1, r.2.1 + 1, r.2.2)
      | .dir sub =>
        match dst.findT n with
        | some (.file _) =>
          let r := copyDirEntries pats rest dst srcPath
          (r.1, r.2.1, r.2.2 + 1)
        | some (.dir dsub) =>
          let rs := copyDirEntries pats sub dsub entryP
          let r := copyDirEntries pats rest (dst.setEntry n (.dir rs.1)) srcPath
          (r.1, r.2.1 + rs.2.1, r.2.2 + rs.2.2)
        | none =>
          let rs := copyDirEntries pats sub .nil entryP
          let r := copyDirEntries pats rest (dst.setEntry n (.dir rs.1)) srcPath
          (r.1, r.2.1 + rs.2.1, r.2.2 + rs.2.2)

/-- Entry list of a tree (a workspace root is always a directory). -/
def FSTree.entriesOf : FSTree → Entries
  | .file _ => .nil
  | .dir es => es

/-- The staged restore's STEP 5 (source lines 3059-3082): remove every
top-level workspace entry whose name is not literally contained in the
ignore-pattern list (`allIgnorePatterns.includes(entry.name)`), recursively. -/
def removeTopLevel (pats : List String) : Entries → Entries × Nat
  | .nil => (.nil, 0)
  | .cons n t rest =>
    let r := removeTopLevel pats rest
    if n ∈ pats then (.cons n t r.1, r.2) else (r.1, r.2 + 1)

/-- Result of the staged restore. -/
structure StagedResult where
  ok : Bool
  tree : FSTree
  stagedCopied : Nat
  stagedFailed : Nat
  deletedTop : Nat
  copied : Nat
  failed : Nat

/-- Models the older revision's `restoreSimpleSnapshot` (source lines
2922-3168), after the user confirmation: resolve the metadata record (missing
→ error), resolve the content directory (missing → error); the manifest is
read but its `ignorePatterns` are only logged, never adopted (lines
2978-2989), so the caller-supplied patterns stay in force.  STEP 4 copies the
snapshot into a fresh staging area (skipping the manifest names), STEP 5
removes every top-level workspace entry whose name is not in the pattern
list, STEP 6 copies the staging area back over the workspace with no
exclusions. -/
def restoreStaged (vibeDir : String) (custom : List String)
    (index : List String) (store : String → Option SnapState)
    (id : String) (live : FSTree) : StagedResult :=
  if id ∈ index then
    match store id with
    | none =>
      { ok := false, tree := live, stagedCopied := 0, stagedFailed := 0,
        deletedTop := 0, copied := 0, failed := 0 }
    | some snap =>
      let allIgnorePatterns := defaultIgnorePatterns ++ custom
      let snapshotDir := joinPath vibeDir [id]
      let staging :=
        copyDirEntries [manifestFileName, vibesyncBaseName]
          snap.files.entriesOf .nil snapshotDir
      let cleaned := removeTopLevel allIgnorePatterns live.entriesOf
      let back := copyDirEntries [] staging.1 cleaned.1 (joinPath vibeDir ["restore-staging"])
      { ok := true, tree := .dir back.1, stagedCopied := staging.2.1,
        stagedFailed := staging.2.2, deletedTop := cleaned.2,
        copied := back.2.1, failed := back.2.2 }
  else
    { ok := false, tree := live, stagedCopied := 0, stagedFailed := 0,
      deletedTop := 0, copied := 0, failed := 0 }

/-- The segment-path exclusion predicate the walker effectively computes for
a full path: some pattern occurs in the root-joined path (the entry-name
equality disjunct is absorbed, see `entryExcluded_eq_pathExcluded`). -/
def pathExcluded (root : String) (pats : List String) (p : List String) : Bool :=
  pats.any fun pat => substr pat (joinPath root p)

theorem joinPath_append (root : String) (p q : List String) :
    joinPath root (p ++ q) = joinPath (joinPath root p) q :=
  List.foldl_append _ _ _ _

theorem joinPath_cons (root : String) (s : String) (q : List String) :
    joinPath root (s :: q) = joinPath (root ++ "/" ++ s) q := rfl

theorem joinPath_data_leading (q : List String) (root : String) :
    root.data <+: (joinPath root q).data := by
  induction q generalizing root with
  | nil => exact List.prefix_refl _
  | cons s rest ih =>
    rw [joinPath_cons]
    refine List.IsPrefix.trans ?_ (ih (root ++ "/" ++ s))
    rw [String.data_append, String.data_append]
    exact (List.prefix_append _ _).trans (List.prefix_append _ _)

theorem substr_joinPath_mono {pat root : String} {p : List String}
    (q : List String) (h : substr pat (joinPath root p) = true) :
    substr pat (joinPath root (p ++ q)) = true := by
  simp only [substr, decide_eq_true_eq] at h ⊢
  rw [joinPath_append]
  exact h.trans ((joinPath_data_leading q (joinPath root p)).isInfix)

theorem substr_of_mem_joinPath {s root : String} {p : List String}
    (h : s ∈ p) : substr s (joinPath root p) = true := by
  simp only [substr, decide_eq_true_eq]
  induction p generalizing root with
  | nil => cases h
  | cons a rest ih =>
    rw [joinPath_cons]
    rcases List.mem_cons.1 h with rfl | hmem
    · refine List.IsInfix.trans ?_ ((joinPath_data_leading rest _).isInfix)
      rw [String.data_append]
      exact (List.suffix_append _ _).isInfix
    · exact ih hmem

theorem entryExcluded_eq_pathExcluded (root : String) (pats : List String)
    (rel : List String) (n : String) :
    entryExcluded pats n (joinPath root (rel ++ [n]))
      = pathExcluded root pats (rel ++ [n]) := by
  rw [Bool.eq_iff_iff]
  simp only [entryExcluded, pathExcluded, List.any_eq_true, Bool.or_eq_true,
    decide_eq_true_eq]
  constructor
  · rintro ⟨pat, hpat, h | h⟩
    · exact ⟨pat, hpat, by subst h; exact substr_of_mem_joinPath (by simp)⟩
    · exact ⟨pat, hpat, h⟩
  · rintro ⟨pat, hpat, h⟩
    exact ⟨pat, hpat, Or.inr h⟩

theorem pathExcluded_mono {root : String} {pats : List String}
    {p : List String} (q : List String)
    (h : pathExcluded root pats p = true) :
    pathExcluded root pats (p ++ q) = true := by
  simp only [pathExcluded, List.any_eq_true] at h ⊢
  obtain ⟨pat, hpat, hs⟩ := h
  exact ⟨pat, hpat, substr_joinPath_mono q hs⟩


theorem lookupIn_nil_eq (m : String) (p : List String) :
    Entries.lookupIn .nil m p = none := rfl

theorem lookupIn_cons_eq (n : String) (t : FSTree) (rest : Entries)
    (m : String) (p : List String) :
    Entries.lookupIn (.cons n t rest) m p
      = if n = m then t.lookup p else Entries.lookupIn rest m p := rfl

theorem lookup_file_nil_eq (c : String) : (FSTree.file c).lookup [] = some c := rfl

theorem lookup_file_cons_eq (c a : String) (p : List String) :
    (FSTree.file c).lookup (a :: p) = none := rfl

theorem lookup_dir_nil_eq (es : Entries) : (FSTree.dir es).lookup [] = none := rfl

theorem lookup_dir_cons_eq (es : Entries) (n : String) (p : List String) :
    (FSTree.dir es).lookup (n :: p) = Entries.lookupIn es n p := rfl

theorem getFiles_file_eq (root : String) (pats : List String) (c : String)
    (rel : List String) (d maxD : Nat) :
    getFilesRecursively root pats (.file c) rel d maxD = [] := rfl

theorem getFiles_dir_eq (root : String) (pats : List String) (es : Entries)
    (rel : List String) (d maxD : Nat) :
    getFilesRecursively root pats (.dir es) rel d maxD
      = if d > maxD then [] else walkEntries root pats es rel d maxD := rfl

theorem walkEntries_nil_eq (root : String) (pats : List String)
    (rel : List String) (d maxD : Nat) :
    walkEntries root pats .nil rel d maxD = [] := rfl

theorem walkEntries_cons_file_eq (root : String) (pats : List String)
    (n c : String) (rest : Entries) (rel : List String) (d maxD : Nat) :
    walkEntries root pats (.cons n (.file c) rest) rel d maxD
      = (if entryExcluded pats n (joinPath root (rel ++ [n])) then []
         else [rel ++ [n]])
        ++ walkEntries root pats rest rel d maxD := rfl

theorem walkEntries_cons_dir_eq (root : String) (pats : List String)
    (n : String) (sub : Entries) (rest : Entries) (rel : List String)
    (d maxD : Nat) :
    walkEntries root pats (.cons n (.dir sub) rest) rel d maxD
      = (if entryExcluded pats n (joinPath root (rel ++ [n])) then []
         else getFilesRecursively root pats (.dir sub) (rel ++ [n]) (d + 1) maxD)
        ++ walkEntries root pats rest rel d maxD := rfl

theorem Entries.lookupIn_hasName :
    ∀ {es : Entries} {n : String} {p : List String} {c : String},
      Entries.lookupIn es n p = some c → es.hasName n = true
  | .nil, _, _, _, h => by rw [lookupIn_nil_eq] at h; cases h
  | .cons m t rest, n, p, c, h => by
    rw [lookupIn_cons_eq] at h
    rw [Entries.hasName]
    by_cases hm : m = n
    · simp [hm]
    · rw [if_neg hm] at h
      simp [Entries.lookupIn_hasName h]

/-- What the walker enumerates below a subtree: a nonempty relative suffix
resolving to a file, within the depth budget, no nonempty prefix of which is
excluded. -/
def walkSpec (root : String) (pats : List String) (t : FSTree)
    (rel : List String) (d maxD : Nat) (q : List String) : Prop :=
  ∃ suf c, q = rel ++ suf ∧ suf ≠ [] ∧ t.lookup suf = some c ∧
    d + suf.length ≤ maxD + 1 ∧
    ∀ pre, pre <+: suf → pre ≠ [] → pathExcluded root pats (rel ++ pre) = false

/-- What the walker enumerates from an entry list (helper of `walkSpec`). -/
def entriesWalkSpec (root : String) (pats : List String) (es : Entries)
    (rel : List String) (d maxD : Nat) (q : List String) : Prop :=
  ∃ n p2 c, q = rel ++ n :: p2 ∧ Entries.lookupIn es n p2 = some c ∧
    d + (n :: p2).length ≤ maxD + 1 ∧
    ∀ pre, pre <+: n :: p2 → pre ≠ [] →
      pathExcluded root pats (rel ++ pre) = false

theorem FSTree.sizeOf_pos_t (t : FSTree) : 0 < sizeOf t := by
  cases t <;> simp

theorem Entries.sizeOf_pos_e (es : Entries) : 0 < sizeOf es := by
  cases es <;> simp

theorem walkChar (root : String) (pats : List String) : ∀ N : Nat,
    (∀ t rel d maxD q, sizeOf t ≤ N → FSTree.wf t = true →
      (q ∈ getFilesRecursively root pats t rel d maxD ↔
        walkSpec root pats t rel d maxD q)) ∧
    (∀ es rel d maxD q, sizeOf es ≤ N → Entries.wfE es = true → d ≤ maxD →
      (q ∈ walkEntries root pats es rel d maxD ↔
        entriesWalkSpec root pats es rel d maxD q)) := by
  intro N
  induction N with
  | zero =>
    constructor
    · intro t _ _ _ _ hsz _
      exact absurd hsz (by have := t.sizeOf_pos_t; omega)
    · intro es _ _ _ _ hsz _ _
      exact absurd hsz (by have := es.sizeOf_pos_e; omega)
  | succ N ih =>
    constructor
    · intro t rel d maxD q hsz hwf
      cases t with
      | file c0 =>
        rw [getFiles_file_eq]
        simp only [List.not_mem_nil, false_iff, walkSpec]
        rintro ⟨suf, c, rfl, hne, hlook, -⟩
        cases suf with
        | nil => exact hne rfl
        | cons a as => rw [lookup_file_cons_eq] at hlook; cases hlook
      | dir es =>
        rw [getFiles_dir_eq]
        by_cases hd : d > maxD
        · rw [if_pos hd]
          simp only [List.not_mem_nil, false_iff, walkSpec]
          rintro ⟨suf, c, rfl, hne, hlook, hlen, -⟩
          cases suf with
          | nil => exact hne rfl
          | cons a as =>
            simp only [List.length_cons] at hlen
            omega
        · rw [if_neg hd]
          have hszes : sizeOf es ≤ N := by simp at hsz; omega
          rw [ih.2 es rel d maxD q hszes (by rw [FSTree.wf] at hwf; exact hwf)
            (by omega)]
          constructor
          · rintro ⟨n, p2, c, rfl, hlook, hlen, hpre⟩
            exact ⟨n :: p2, c, rfl, by simp,
              by rw [lookup_dir_cons_eq]; exact hlook, hlen, hpre⟩
          · rintro ⟨suf, c, rfl, hne, hlook, hlen, hpre⟩
            cases suf with
            | nil => exact absurd rfl hne
            | cons n p2 =>
              rw [lookup_dir_cons_eq] at hlook
              exact ⟨n, p2, c, rfl, hlook, hlen, hpre⟩
    · intro es rel d maxD q hsz hwf hd
      cases es with
      | nil =>
        rw [walkEntries_nil_eq]
        simp only [List.not_mem_nil, false_iff, entriesWalkSpec]
        rintro ⟨n, p2, c, rfl, hlook, -⟩
        rw [lookupIn_nil_eq] at hlook
        cases hlook
      | cons n t rest =>
        rw [Entries.wfE] at hwf
        simp only [Bool.and_eq_true, Bool.not_eq_eq_eq_not, Bool.not_true] at hwf
        obtain ⟨⟨hname, hwt⟩, hwrest⟩ := hwf
        have hszrest : sizeOf rest ≤ N := by simp at hsz; omega
        have hszt : sizeOf t ≤ N := by simp at hsz; omega
        have hrest := ih.2 rest rel d maxD q hszrest hwrest hd
        have hnotrest : ∀ p2 c, Entries.lookupIn rest n p2 = some c → False := by
          intro p2 c hlook
          rw [Entries.lookupIn_hasName hlook] at hname; cases hname
        by_cases hexcl : entryExcluded pats n (joinPath root (rel ++ [n])) = true
        · have hpe : pathExcluded root pats (rel ++ [n]) = true := by
            rw [← entryExcluded_eq_pathExcluded]; exact hexcl
          have hL : q ∈ walkEntries root pats (.cons n t rest) rel d maxD ↔
              q ∈ walkEntries root pats rest rel d maxD := by
            cases t with
            | file c0 => rw [walkEntries_cons_file_eq, if_pos hexcl, List.nil_append]
            | dir sub => rw [walkEntries_cons_dir_eq, if_pos hexcl, List.nil_append]
          rw [hL, hrest]
          constructor
          · rintro ⟨m, p2, c, rfl, hlook, hlen, hpre⟩
            refine ⟨m, p2, c, rfl, ?_, hlen, hpre⟩
            rw [lookupIn_cons_eq]
            rw [if_neg (fun h => hnotrest p2 c (by rw [h]; exact hlook))]
            exact hlook
          · rintro ⟨m, p2, c, rfl, hlook, hlen, hpre⟩
            rw [lookupIn_cons_eq] at hlook
            by_cases hmn : n = m
            · subst hmn
              have := hpre [n] (by simp [List.cons_prefix_cons]) (by simp)
              rw [hpe] at this; cases this
            · rw [if_neg hmn] at hlook
              exact ⟨m, p2, c, rfl, hlook, hlen, hpre⟩
        · have hpe : pathExcluded root pats (rel ++ [n]) = false := by
            rw [← entryExcluded_eq_pathExcluded]
            rwa [Bool.not_eq_true] at hexcl
          have hexclF : entryExcluded pats n (joinPath root (rel ++ [n])) = false := by
            rwa [Bool.not_eq_true] at hexcl
          cases t with
          | file c0 =>
            have hL : q ∈ walkEntries root pats (.cons n (.file c0) rest) rel d maxD ↔
                q = rel ++ [n] ∨ q ∈ walkEntries root pats rest rel d maxD := by
              rw [walkEntries_cons_file_eq, if_neg (by rw [hexclF]; exact Bool.false_ne_true),
                List.singleton_append, List.mem_cons]
            rw [hL, hrest]
            constructor
            · rintro (rfl | ⟨m, p2, c, rfl, hlook, hlen, hpre⟩)
              · refine ⟨n, [], c0, by simp, ?_, by simpa using hd, ?_⟩
                · rw [lookupIn_cons_eq, if_pos rfl, lookup_file_nil_eq]
                · intro pre hp hne
                  cases pre with
                  | nil => exact absurd rfl hne
                  | cons a as =>
                    rcases List.cons_prefix_cons.1 hp with ⟨rfl, has⟩
                    rw [List.prefix_nil] at has
                    subst has
                    exact hpe
              · refine ⟨m, p2, c, rfl, ?_, hlen, hpre⟩
                rw [lookupIn_cons_eq]
                rw [if_neg (fun h => hnotrest p2 c (by rw [h]; exact hlook))]
                exact hlook
            · rintro ⟨m, p2, c, rfl, hlook, hlen, hpre⟩
              rw [lookupIn_cons_eq] at hlook
              by_cases hmn : n = m
              · subst hmn
                rw [if_pos rfl] at hlook
                cases p2 with
                | nil => exact Or.inl rfl
                | cons a as => rw [lookup_file_cons_eq] at hlook; cases hlook
              · rw [if_neg hmn] at hlook
                exact Or.inr ⟨m, p2, c, rfl, hlook, hlen, hpre⟩
          | dir sub =>
            have hsub := ih.1 (.dir sub) (rel ++ [n]) (d + 1) maxD q hszt hwt
            have hL : q ∈ walkEntries root pats (.cons n (.dir sub) rest) rel d maxD ↔
                q ∈ getFilesRecursively root pats (.dir sub) (rel ++ [n]) (d + 1) maxD ∨
                  q ∈ walkEntries root pats rest rel d maxD := by
              rw [walkEntries_cons_dir_eq, if_neg (by rw [hexclF]; exact Bool.false_ne_true),
                List.mem_append]
            rw [hL, hsub, hrest]
            constructor
            · rintro (hbr | ⟨m, p2, c, rfl, hlook, hlen, hpre⟩)
              · obtain ⟨suf, c, rfl, hne, hlook, hlen, hpre⟩ := hbr
                refine ⟨n, suf, c, by simp, ?_, ?_, ?_⟩
                · rw [lookupIn_cons_eq, if_pos rfl]; exact hlook
                · simp only [List.length_cons]; omega
                · intro pre hp hpne
                  cases pre with
                  | nil => exact absurd rfl hpne
                  | cons a as =>
                    rcases List.cons_prefix_cons.1 hp with ⟨rfl, has⟩
                    rcases Decidable.em (as = []) with rfl | hasne
                    · simpa using hpe
                    · rw [List.append_cons]
                      exact hpre as has hasne
              · refine ⟨m, p2, c, rfl, ?_, hlen, hpre⟩
                rw [lookupIn_cons_eq]
                rw [if_neg (fun h => hnotrest p2 c (by rw [h]; exact hlook))]
                exact hlook
            · rintro ⟨m, p2, c, rfl, hlook, hlen, hpre⟩
              rw [lookupIn_cons_eq] at hlook
              by_cases hmn : n = m
              · subst hmn
                rw [if_pos rfl] at hlook
                left
                refine ⟨p2, c, by simp, ?_, hlook, ?_, ?_⟩
                · rintro rfl
                  rw [lookup_dir_nil_eq] at hlook; cases hlook
                · simp only [List.length_cons] at hlen; omega
                · intro pre hp hpne
                  rw [← List.append_cons]
                  exact hpre (n :: pre) (List.cons_prefix_cons.2 ⟨rfl, hp⟩) (by simp)
              · rw [if_neg hmn] at hlook
                exact Or.inr ⟨m, p2, c, rfl, hlook, hlen, hpre⟩

theorem mem_getFilesRecursively {root : String} {pats : List String}
    {t : FSTree} {rel : List String} {d maxD : Nat} {q : List String}
    (hwf : t.wf = true) :
    q ∈ getFilesRecursively root pats t rel d maxD ↔
      walkSpec root pats t rel d maxD q :=
  (walkChar root pats (sizeOf t)).1 t rel d maxD q le_rfl hwf

/-- Top-level walker characterization: a path is enumerated from the walked
root exactly when it resolves to a file, is at most `maxD + 1` segments deep,
and no pattern occurs in its root-joined path. -/
theorem mem_getFiles_top {root : String} {pats : List String} {t : FSTree}
    {maxD : Nat} {q : List String} (hwf : t.wf = true) :
    q ∈ getFilesRecursively root pats t [] 0 maxD ↔
      (∃ c, t.lookup q = some c) ∧ q ≠ [] ∧ q.length ≤ maxD + 1 ∧
        pathExcluded root pats q = false := by
  rw [mem_getFilesRecursively hwf]
  constructor
  · rintro ⟨suf, c, hq, hne, hlook, hlen, hpre⟩
    rw [List.nil_append] at hq
    subst hq
    exact ⟨⟨c, hlook⟩, hne, by omega,
      by simpa using hpre q (List.prefix_refl _) hne⟩
  · rintro ⟨⟨c, hlook⟩, hne, hlen, hq⟩
    refine ⟨q, c, by simp, hne, hlook, by omega, ?_⟩
    intro pre hp hpne
    rw [List.nil_append]
    by_contra hcon
    rw [Bool.not_eq_false] at hcon
    obtain ⟨rest, rfl⟩ := hp
    rw [pathExcluded_mono rest hcon] at hq
    cases hq

theorem removeIn_nil_eq (m : String) (p : List String) :
    Entries.removeIn .nil m p = .nil := rfl

theorem removeIn_cons_nil_eq (a : String) (t : FSTree) (rest : Entries)
    (m : String) :
    Entries.removeIn (.cons a t rest) m []
      = if a = m then rest else .cons a t (rest.removeIn m []) := rfl

theorem removeIn_cons_cons_eq (a : String) (t : FSTree) (rest : Entries)
    (m q : String) (qs : List String) :
    Entries.removeIn (.cons a t rest) m (q :: qs)
      = if a = m then .cons a (t.removePath (q :: qs)) rest
        else .cons a t (rest.removeIn m (q :: qs)) := rfl

theorem removePath_file_eq (c : String) (p : List String) :
    (FSTree.file c).removePath p = .file c := rfl

theorem removePath_dir_nil_eq (es : Entries) :
    (FSTree.dir es).removePath [] = .dir es := rfl

theorem removePath_dir_cons_eq (es : Entries) (n : String) (p : List String) :
    (FSTree.dir es).removePath (n :: p) = .dir (es.removeIn n p) := rfl

theorem hasName_nil_eq (m : String) : Entries.hasName .nil m = false := rfl

theorem hasName_cons_eq (a : String) (t : FSTree) (rest : Entries) (m : String) :
    Entries.hasName (.cons a t rest) m = (decide (a = m) || rest.hasName m) := rfl

theorem wfE_nil_eq : Entries.wfE .nil = true := rfl

theorem wfE_cons_eq (a : String) (t : FSTree) (rest : Entries) :
    Entries.wfE (.cons a t rest) = (!rest.hasName a && t.wf && rest.wfE) := rfl

theorem wf_file_eq (c : String) : (FSTree.file c).wf = true := rfl

theorem wf_dir_eq (es : Entries) : (FSTree.dir es).wf = es.wfE := rfl

theorem Entries.lookupIn_eq_none_of_not_hasName {es : Entries} {n : String}
    (h : es.hasName n = false) (p : List String) :
    Entries.lookupIn es n p = none := by
  cases hl : Entries.lookupIn es n p with
  | none => rfl
  | some c => rw [Entries.lookupIn_hasName hl] at h; cases h

theorem hasName_removeIn :
    ∀ {es : Entries} (n : String) (qs : List String) (m : String),
      (es.removeIn n qs).hasName m = true → es.hasName m = true
  | .nil, n, qs, m, h => by rw [removeIn_nil_eq] at h; exact h
  | .cons a t rest, n, [], m, h => by
    rw [removeIn_cons_nil_eq] at h
    rw [hasName_cons_eq]
    by_cases ha : a = n
    · rw [if_pos ha] at h
      simp [hasName_cons_eq] at h ⊢
      exact Or.inr h
    · rw [if_neg ha, hasName_cons_eq] at h
      simp only [Bool.or_eq_true] at h ⊢
      rcases h with h | h
      · exact Or.inl h
      · exact Or.inr (hasName_removeIn n [] m h)
  | .cons a t rest, n, q :: qs, m, h => by
    rw [removeIn_cons_cons_eq] at h
    rw [hasName_cons_eq]
    by_cases ha : a = n
    · rw [if_pos ha, hasName_cons_eq] at h
      exact h
    · rw [if_neg ha, hasName_cons_eq] at h
      simp only [Bool.or_eq_true] at h ⊢
      rcases h with h | h
      · exact Or.inl h
      · exact Or.inr (hasName_removeIn n (q :: qs) m h)

theorem lookupIn_removeIn :
    ∀ {es : Entries}, es.wfE = true → ∀ (n : String) (qs : List String)
      (m : String) (ps : List String),
      Entries.lookupIn (es.removeIn n qs) m ps
        = if n :: qs <+: m :: ps then none else Entries.lookupIn es m ps
  | .nil, _, n, qs, m, ps => by
    rw [removeIn_nil_eq, lookupIn_nil_eq]
    split <;> rfl
  | .cons a t rest, hwf, n, qs, m, ps => by
    rw [wfE_cons_eq] at hwf
    simp only [Bool.and_eq_true, Bool.not_eq_eq_eq_not, Bool.not_true] at hwf
    obtain ⟨⟨hname, hwt⟩, hwrest⟩ := hwf
    by_cases ha : a = n
    · subst ha
      cases qs with
      | nil =>
        rw [removeIn_cons_nil_eq, if_pos rfl]
        by_cases hm : a = m
        · subst hm
          rw [if_pos (List.cons_prefix_cons.2 ⟨rfl, List.nil_prefix⟩)]
          exact Entries.lookupIn_eq_none_of_not_hasName hname ps
        · rw [if_neg (fun h => hm (List.cons_prefix_cons.1 h).1),
            lookupIn_cons_eq, if_neg hm]
      | cons q qs2 =>
        rw [removeIn_cons_cons_eq, if_pos rfl, lookupIn_cons_eq]
        by_cases hm : a = m
        · subst hm
          rw [if_pos rfl]
          cases t with
          | file c0 =>
            rw [removePath_file_eq, lookupIn_cons_eq, if_pos rfl]
            by_cases hp : a :: q :: qs2 <+: a :: ps
            · rw [if_pos hp]
              obtain ⟨-, hqs⟩ := List.cons_prefix_cons.1 hp
              obtain ⟨tail, rfl⟩ := hqs
              rw [List.cons_append, lookup_file_cons_eq]
            · rw [if_neg hp]
          | dir sub =>
            rw [removePath_dir_cons_eq, lookupIn_cons_eq, if_pos rfl]
            cases ps with
            | nil =>
              rw [lookup_dir_nil_eq, lookup_dir_nil_eq]
              rw [if_neg (fun h => by
                obtain ⟨-, hqs⟩ := List.cons_prefix_cons.1 h
                rw [List.prefix_nil] at hqs
                cases hqs)]
            | cons b bs =>
              rw [lookup_dir_cons_eq, lookup_dir_cons_eq,
                lookupIn_removeIn (by rw [wf_dir_eq] at hwt; exact hwt) q qs2 b bs]
              by_cases hp : q :: qs2 <+: b :: bs
              · rw [if_pos hp, if_pos (List.cons_prefix_cons.2 ⟨rfl, hp⟩)]
              · rw [if_neg hp,
                  if_neg (fun h => hp (List.cons_prefix_cons.1 h).2)]
        · rw [if_neg hm, lookupIn_cons_eq, if_neg hm,
            if_neg (fun h => hm (List.cons_prefix_cons.1 h).1)]
    · cases qs with
      | nil =>
        rw [removeIn_cons_nil_eq, if_neg ha, lookupIn_cons_eq, lookupIn_cons_eq]
        by_cases hm : a = m
        · rw [if_pos hm,
            if_neg (fun h => ha (hm.trans (List.cons_prefix_cons.1 h).1.symm)),
            if_pos hm]
        · rw [if_neg hm, if_neg hm, lookupIn_removeIn hwrest n [] m ps]
      | cons q qs2 =>
        rw [removeIn_cons_cons_eq, if_neg ha, lookupIn_cons_eq, lookupIn_cons_eq]
        by_cases hm : a = m
        · subst hm
          rw [if_pos rfl, if_pos rfl,
            if_neg (fun h => ha (List.cons_prefix_cons.1 h).1.symm)]
        · rw [if_neg hm, if_neg hm, lookupIn_removeIn hwrest n (q :: qs2) m ps]
termination_by es => sizeOf es

theorem lookup_removePath {t : FSTree} (hwf : t.wf = true) {q : List String}
    (hq : q ≠ []) (p : List String) :
    (t.removePath q).lookup p = if q <+: p then none else t.lookup p := by
  cases t with
  | file c0 =>
    rw [removePath_file_eq]
    by_cases hqp : q <+: p
    · rw [if_pos hqp]
      cases p with
      | nil => rw [List.prefix_nil] at hqp; exact absurd hqp hq
      | cons a as => rw [lookup_file_cons_eq]
    · rw [if_neg hqp]
  | dir es =>
    cases q with
    | nil => exact absurd rfl hq
    | cons n qs =>
      rw [removePath_dir_cons_eq]
      cases p with
      | nil =>
        rw [lookup_dir_nil_eq, lookup_dir_nil_eq,
          if_neg (fun h => by
            obtain ⟨tail, htail⟩ := h
            cases htail)]
      | cons m ps =>
        rw [lookup_dir_cons_eq, lookup_dir_cons_eq,
          lookupIn_removeIn (by rw [wf_dir_eq] at hwf; exact hwf) n qs m ps]

theorem wf_removeIn :
    ∀ {es : Entries}, es.wfE = true → ∀ (n : String) (qs : List String),
      (es.removeIn n qs).wfE = true
  | .nil, _, n, qs => by rw [removeIn_nil_eq]; rfl
  | .cons a t rest, hwf, n, qs => by
    rw [wfE_cons_eq] at hwf
    simp only [Bool.and_eq_true, Bool.not_eq_eq_eq_not, Bool.not_true] at hwf
    obtain ⟨⟨hname, hwt⟩, hwrest⟩ := hwf
    by_cases ha : a = n
    · cases qs with
      | nil => rw [removeIn_cons_nil_eq, if_pos ha]; exact hwrest
      | cons q qs2 =>
        rw [removeIn_cons_cons_eq, if_pos ha, wfE_cons_eq]
        simp only [Bool.and_eq_true, Bool.not_eq_eq_eq_not, Bool.not_true]
        refine ⟨⟨hname, ?_⟩, hwrest⟩
        cases t with
        | file c0 => rw [removePath_file_eq]; rfl
        | dir sub =>
          rw [removePath_dir_cons_eq, wf_dir_eq]
          exact wf_removeIn (by rw [wf_dir_eq] at hwt; exact hwt) q qs2
    · cases qs with
      | nil =>
        rw [removeIn_cons_nil_eq, if_neg ha, wfE_cons_eq]
        simp only [Bool.and_eq_true, Bool.not_eq_eq_eq_not, Bool.not_true]
        refine ⟨⟨?_, hwt⟩, wf_removeIn hwrest n []⟩
        cases hrn : (rest.removeIn n []).hasName a with
        | false => rfl
        | true => rw [hasName_removeIn n [] a hrn] at hname; cases hname
      | cons q qs2 =>
        rw [removeIn_cons_cons_eq, if_neg ha, wfE_cons_eq]
        simp only [Bool.and_eq_true, Bool.not_eq_eq_eq_not, Bool.not_true]
        refine ⟨⟨?_, hwt⟩, wf_removeIn hwrest n (q :: qs2)⟩
        cases hrn : (rest.removeIn n (q :: qs2)).hasName a with
        | false => rfl
        | true => rw [hasName_removeIn n (q :: qs2) a hrn] at hname; cases hname
termination_by es => sizeOf es

theorem wf_removePath {t : FSTree} (hwf : t.wf = true) (q : List String) :
    (t.removePath q).wf = true := by
  cases t with
  | file c0 => rw [removePath_file_eq]; rfl
  | dir es =>
    cases q with
    | nil => rw [removePath_dir_nil_eq]; exact hwf
    | cons n qs =>
      rw [removePath_dir_cons_eq, wf_dir_eq]
      exact wf_removeIn (by rw [wf_dir_eq] at hwf; exact hwf) n qs

theorem writeIn_nil_nil_eq (m c : String) :
    Entries.writeIn .nil m [] c = some (.cons m (.file c) .nil) := rfl

theorem writeIn_nil_cons_eq (m q : String) (qs : List String) (c : String) :
    Entries.writeIn .nil m (q :: qs) c
      = (Entries.writeIn .nil q qs c).map fun sub => .cons m (.dir sub) .nil := rfl

theorem writeIn_cons_file_nil_eq (a c0 : String) (rest : Entries) (m c : String) :
    Entries.writeIn (.cons a (.file c0) rest) m [] c
      = if a = m then some (.cons a (.file c) rest)
        else (Entries.writeIn rest m [] c).map fun rest2 =>
          .cons a (.file c0) rest2 := by
  rw [Entries.writeIn]
  by_cases ha : a = m
  · rw [if_pos ha, if_pos ha]
  · rw [if_neg ha, if_neg ha]
    cases Entries.writeIn rest m [] c <;> rfl

theorem writeIn_cons_dir_nil_eq (a : String) (sub rest : Entries) (m c : String) :
    Entries.writeIn (.cons a (.dir sub) rest) m [] c
      = if a = m then none
        else (Entries.writeIn rest m [] c).map fun rest2 =>
          .cons a (.dir sub) rest2 := by
  rw [Entries.writeIn]
  by_cases ha : a = m
  · rw [if_pos ha, if_pos ha]
  · rw [if_neg ha, if_neg ha]
    cases Entries.writeIn rest m [] c <;> rfl

theorem writeIn_cons_file_cons_eq (a c0 : String) (rest : Entries)
    (m q : String) (qs : List String) (c : String) :
    Entries.writeIn (.cons a (.file c0) rest) m (q :: qs) c
      = if a = m then none
        else (Entries.writeIn rest m (q :: qs) c).map fun rest2 =>
          .cons a (.file c0) rest2 := by
  rw [Entries.writeIn]
  by_cases ha : a = m
  · rw [if_pos ha, if_pos ha]
  · rw [if_neg ha, if_neg ha]
    cases Entries.writeIn rest m (q :: qs) c <;> rfl

theorem writeIn_cons_dir_cons_eq (a : String) (sub rest : Entries)
    (m q : String) (qs : List String) (c : String) :
    Entries.writeIn (.cons a (.dir sub) rest) m (q :: qs) c
      = if a = m then (Entries.writeIn sub q qs c).map fun sub2 =>
          .cons a (.dir sub2) rest
        else (Entries.writeIn rest m (q :: qs) c).map fun rest2 =>
          .cons a (.dir sub) rest2 := by
  rw [Entries.writeIn]
  by_cases ha : a = m
  · rw [if_pos ha, if_pos ha]
    cases Entries.writeIn sub q qs c <;> rfl
  · rw [if_neg ha, if_neg ha]
    cases Entries.writeIn rest m (q :: qs) c <;> rfl

theorem writePath_file_eq (c0 : String) (p : List String) (c : String) :
    (FSTree.file c0).writePath p c = none := by
  rw [FSTree.writePath]

theorem writePath_dir_nil_eq (es : Entries) (c : String) :
    (FSTree.dir es).writePath [] c = none := by
  rw [FSTree.writePath]

theorem writePath_dir_cons_eq (es : Entries) (n : String) (p : List String)
    (c : String) :
    (FSTree.dir es).writePath (n :: p) c
      = (Entries.writeIn es n p c).map .dir := by
  rw [FSTree.writePath]
  cases Entries.writeIn es n p c <;> rfl

theorem lookupIn_writeIn :
    ∀ {es : Entries} {m : String} {qs : List String} {c : String}
      {es2 : Entries}, Entries.writeIn es m qs c = some es2 →
      ∀ (n : String) (ps : List String),
        Entries.lookupIn es2 n ps
          = if n :: ps = m :: qs then some c else Entries.lookupIn es n ps
  | .nil, m, [], c, es2, h, n, ps => by
    rw [writeIn_nil_nil_eq] at h
    cases h
    rw [lookupIn_cons_eq, lookupIn_nil_eq]
    by_cases hn : m = n
    · subst hn
      rw [if_pos rfl]
      cases ps with
      | nil => rw [lookup_file_nil_eq, if_pos rfl]
      | cons b bs =>
        rw [lookup_file_cons_eq, if_neg (by simp)]
    · rw [if_neg hn, if_neg (by simp [Ne.symm hn])]
  | .nil, m, q :: qs, c, es2, h, n, ps => by
    rw [writeIn_nil_cons_eq] at h
    cases hsub : Entries.writeIn .nil q qs c with
    | none => rw [hsub] at h; cases h
    | some sub =>
      rw [hsub] at h
      cases h
      rw [lookupIn_cons_eq, lookupIn_nil_eq]
      by_cases hn : m = n
      · subst hn
        rw [if_pos rfl]
        cases ps with
        | nil =>
          rw [lookup_dir_nil_eq, if_neg (by simp)]
        | cons b bs =>
          rw [lookup_dir_cons_eq, lookupIn_writeIn hsub b bs, lookupIn_nil_eq]
          by_cases hb : b :: bs = q :: qs
          · rw [if_pos hb, if_pos (by rw [hb])]
          · rw [if_neg hb, if_neg (fun h2 => hb (List.cons_eq_cons.1 h2).2)]
      · rw [if_neg hn, if_neg (by simp [Ne.symm hn])]
  | .cons a (.file c0) rest, m, [], c, es2, h, n, ps => by
    rw [writeIn_cons_file_nil_eq] at h
    by_cases ha : a = m
    · rw [if_pos ha] at h
      cases h
      subst ha
      rw [lookupIn_cons_eq, lookupIn_cons_eq]
      by_cases hn : a = n
      · subst hn
        rw [if_pos rfl, if_pos rfl]
        cases ps with
        | nil => rw [lookup_file_nil_eq, if_pos rfl]
        | cons b bs =>
          rw [lookup_file_cons_eq, lookup_file_cons_eq, if_neg (by simp)]
      · rw [if_neg hn, if_neg hn, if_neg (by simp [Ne.symm hn])]
    · rw [if_neg ha] at h
      cases hrest : Entries.writeIn rest m [] c with
      | none => rw [hrest] at h; cases h
      | some rest2 =>
        rw [hrest] at h
        cases h
        rw [lookupIn_cons_eq, lookupIn_cons_eq]
        by_cases hn : a = n
        · rw [if_pos hn, if_pos hn,
            if_neg (by rintro ⟨rfl, -⟩; exact ha hn)]
        · rw [if_neg hn, if_neg hn, lookupIn_writeIn hrest n ps]
  | .cons a (.dir sub) rest, m, [], c, es2, h, n, ps => by
    rw [writeIn_cons_dir_nil_eq] at h
    by_cases ha : a = m
    · rw [if_pos ha] at h; cases h
    · rw [if_neg ha] at h
      cases hrest : Entries.writeIn rest m [] c with
      | none => rw [hrest] at h; cases h
      | some rest2 =>
        rw [hrest] at h
        cases h
        rw [lookupIn_cons_eq, lookupIn_cons_eq]
        by_cases hn : a = n
        · rw [if_pos hn, if_pos hn,
            if_neg (by rintro ⟨rfl, -⟩; exact ha hn)]
        · rw [if_neg hn, if_neg hn, lookupIn_writeIn hrest n ps]
  | .cons a (.file c0) rest, m, q :: qs, c, es2, h, n, ps => by
    rw [writeIn_cons_file_cons_eq] at h
    by_cases ha : a = m
    · rw [if_pos ha] at h; cases h
    · rw [if_neg ha] at h
      cases hrest : Entries.writeIn rest m (q :: qs) c with
      | none => rw [hrest] at h; cases h
      | some rest2 =>
        rw [hrest] at h
        cases h
        rw [lookupIn_cons_eq, lookupIn_cons_eq]
        by_cases hn : a = n
        · rw [if_pos hn, if_pos hn,
            if_neg (by rintro ⟨rfl, -⟩; exact ha hn)]
        · rw [if_neg hn, if_neg hn, lookupIn_writeIn hrest n ps]
  | .cons a (.dir sub) rest, m, q :: qs, c, es2, h, n, ps => by
    rw [writeIn_cons_dir_cons_eq] at h
    by_cases ha : a = m
    · rw [if_pos ha] at h
      cases hsub : Entries.writeIn sub q qs c with
      | none => rw [hsub] at h; cases h
      | some sub2 =>
        rw [hsub] at h
        cases h
        subst ha
        rw [lookupIn_cons_eq, lookupIn_cons_eq]
        by_cases hn : a = n
        · subst hn
          rw [if_pos rfl, if_pos rfl]
          cases ps with
          | nil =>
            rw [lookup_dir_nil_eq, lookup_dir_nil_eq, if_neg (by simp)]
          | cons b bs =>
            rw [lookup_dir_cons_eq, lookup_dir_cons_eq,
              lookupIn_writeIn hsub b bs]
            by_cases hb : b :: bs = q :: qs
            · rw [if_pos hb, if_pos (by rw [hb])]
            · rw [if_neg hb, if_neg (fun h2 => hb (List.cons_eq_cons.1 h2).2)]
        · rw [if_neg hn, if_neg hn, if_neg (by simp [Ne.symm hn])]
    · rw [if_neg ha] at h
      cases hrest : Entries.writeIn rest m (q :: qs) c with
      | none => rw [hrest] at h; cases h
      | some rest2 =>
        rw [hrest] at h
        cases h
        rw [lookupIn_cons_eq, lookupIn_cons_eq]
        by_cases hn : a = n
        · rw [if_pos hn, if_pos hn,
            if_neg (by rintro ⟨rfl, -⟩; exact ha hn)]
        · rw [if_neg hn, if_neg hn, lookupIn_writeIn hrest n ps]
termination_by es m qs c es2 h n ps => (sizeOf es, qs.length)

theorem lookup_writePath {t : FSTree} {q : List String} {c : String}
    {t2 : FSTree} (h : t.writePath q c = some t2) (p : List String) :
    t2.lookup p = if p = q then some c else t.lookup p := by
  cases t with
  | file c0 => rw [writePath_file_eq] at h; cases h
  | dir es =>
    cases q with
    | nil => rw [writePath_dir_nil_eq] at h; cases h
    | cons n qs =>
      rw [writePath_dir_cons_eq] at h
      cases hes : Entries.writeIn es n qs c with
      | none => rw [hes] at h; cases h
      | some es2 =>
        rw [hes] at h
        cases h
        cases p with
        | nil =>
          simp [lookup_dir_nil_eq]
        | cons b bs =>
          rw [lookup_dir_cons_eq, lookup_dir_cons_eq,
            lookupIn_writeIn hes b bs]

theorem hasName_writeIn :
    ∀ {es : Entries} {m : String} {qs : List String} {c : String}
      {es2 : Entries}, Entries.writeIn es m qs c = some es2 →
      ∀ x, (es2.hasName x = true ↔ (es.hasName x = true ∨ x = m))
  | .nil, m, [], c, es2, h, x => by
    rw [writeIn_nil_nil_eq] at h
    cases h
    simp [hasName_cons_eq, hasName_nil_eq, eq_comm]
  | .nil, m, q :: qs, c, es2, h, x => by
    rw [writeIn_nil_cons_eq] at h
    cases hsub : Entries.writeIn .nil q qs c with
    | none => rw [hsub] at h; cases h
    | some sub =>
      rw [hsub] at h
      cases h
      simp [hasName_cons_eq, hasName_nil_eq, eq_comm]
  | .cons a (.file c0) rest, m, [], c, es2, h, x => by
    rw [writeIn_cons_file_nil_eq] at h
    by_cases ha : a = m
    · rw [if_pos ha] at h
      cases h
      subst ha
      simp only [hasName_cons_eq, Bool.or_eq_true, decide_eq_true_eq]
      constructor
      · rintro (rfl | hx)
        · exact Or.inl (Or.inl rfl)
        · exact Or.inl (Or.inr hx)
      · rintro ((rfl | hx) | rfl)
        · exact Or.inl rfl
        · exact Or.inr hx
        · exact Or.inl rfl
    · rw [if_neg ha] at h
      cases hrest : Entries.writeIn rest m [] c with
      | none => rw [hrest] at h; cases h
      | some rest2 =>
        rw [hrest] at h
        cases h
        simp only [hasName_cons_eq, Bool.or_eq_true, decide_eq_true_eq,
          hasName_writeIn hrest x]
        tauto
  | .cons a (.dir sub) rest, m, [], c, es2, h, x => by
    rw [writeIn_cons_dir_nil_eq] at h
    by_cases ha : a = m
    · rw [if_pos ha] at h; cases h
    · rw [if_neg ha] at h
      cases hrest : Entries.writeIn rest m [] c with
      | none => rw [hrest] at h; cases h
      | some rest2 =>
        rw [hrest] at h
        cases h
        simp only [hasName_cons_eq, Bool.or_eq_true, decide_eq_true_eq,
          hasName_writeIn hrest x]
        tauto
  | .cons a (.file c0) rest, m, q :: qs, c, es2, h, x => by
    rw [writeIn_cons_file_cons_eq] at h
    by_cases ha : a = m
    · rw [if_pos ha] at h; cases h
    · rw [if_neg ha] at h
      cases hrest : Entries.writeIn rest m (q :: qs) c with
      | none => rw [hrest] at h; cases h
      | some rest2 =>
        rw [hrest] at h
        cases h
        simp only [hasName_cons_eq, Bool.or_eq_true, decide_eq_true_eq,
          hasName_writeIn hrest x]
        tauto
  | .cons a (.dir sub) rest, m, q :: qs, c, es2, h, x => by
    rw [writeIn_cons_dir_cons_eq] at h
    by_cases ha : a = m
    · rw [if_pos ha] at h
      cases hsub : Entries.writeIn sub q qs c with
      | none => rw [hsub] at h; cases h
      | some sub2 =>
        rw [hsub] at h
        cases h
        subst ha
        simp only [hasName_cons_eq, Bool.or_eq_true, decide_eq_true_eq]
        constructor
        · rintro (rfl | hx)
          · exact Or.inl (Or.inl rfl)
          · exact Or.inl (Or.inr hx)
        · rintro ((rfl | hx) | rfl)
          · exact Or.inl rfl
          · exact Or.inr hx
          · exact Or.inl rfl
    · rw [if_neg ha] at h
      cases hrest : Entries.writeIn rest m (q :: qs) c with
      | none => rw [hrest] at h; cases h
      | some rest2 =>
        rw [hrest] at h
        cases h
        simp only [hasName_cons_eq, Bool.or_eq_true, decide_eq_true_eq,
          hasName_writeIn hrest x]
        tauto
termination_by es m qs c es2 h x => (sizeOf es, qs.length)

theorem wf_writeIn :
    ∀ {es : Entries} {m : String} {qs : List String} {c : String}
      {es2 : Entries}, es.wfE = true →
      Entries.writeIn es m qs c = some es2 → es2.wfE = true
  | .nil, m, [], c, es2, _, h => by
    rw [writeIn_nil_nil_eq] at h
    cases h
    rfl
  | .nil, m, q :: qs, c, es2, _, h => by
    rw [writeIn_nil_cons_eq] at h
    cases hsub : Entries.writeIn .nil q qs c with
    | none => rw [hsub] at h; cases h
    | some sub =>
      rw [hsub] at h
      cases h
      rw [wfE_cons_eq]
      simp only [Bool.and_eq_true, Bool.not_eq_eq_eq_not, Bool.not_true]
      exact ⟨⟨rfl, by rw [wf_dir_eq]; exact wf_writeIn wfE_nil_eq hsub⟩, rfl⟩
  | .cons a (.file c0) rest, m, [], c, es2, hwf, h => by
    rw [wfE_cons_eq] at hwf
    simp only [Bool.and_eq_true, Bool.not_eq_eq_eq_not, Bool.not_true] at hwf
    obtain ⟨⟨hname, hwt⟩, hwrest⟩ := hwf
    rw [writeIn_cons_file_nil_eq] at h
    by_cases ha : a = m
    · rw [if_pos ha] at h
      cases h
      rw [wfE_cons_eq]
      simp only [Bool.and_eq_true, Bool.not_eq_eq_eq_not, Bool.not_true]
      exact ⟨⟨hname, rfl⟩, hwrest⟩
    · rw [if_neg ha] at h
      cases hrest : Entries.writeIn rest m [] c with
      | none => rw [hrest] at h; cases h
      | some rest2 =>
        rw [hrest] at h
        cases h
        rw [wfE_cons_eq]
        simp only [Bool.and_eq_true, Bool.not_eq_eq_eq_not, Bool.not_true]
        refine ⟨⟨?_, hwt⟩, wf_writeIn hwrest hrest⟩
        cases hx : rest2.hasName a with
        | false => rfl
        | true =>
          rcases (hasName_writeIn hrest a).1 hx with hr | rfl
          · rw [hr] at hname; cases hname
          · exact absurd rfl ha
  | .cons a (.dir sub) rest, m, [], c, es2, hwf, h => by
    rw [wfE_cons_eq] at hwf
    simp only [Bool.and_eq_true, Bool.not_eq_eq_eq_not, Bool.not_true] at hwf
    obtain ⟨⟨hname, hwt⟩, hwrest⟩ := hwf
    rw [writeIn_cons_dir_nil_eq] at h
    by_cases ha : a = m
    · rw [if_pos ha] at h; cases h
    · rw [if_neg ha] at h
      cases hrest : Entries.writeIn rest m [] c with
      | none => rw [hrest] at h; cases h
      | some rest2 =>
        rw [hrest] at h
        cases h
        rw [wfE_cons_eq]
        simp only [Bool.and_eq_true, Bool.not_eq_eq_eq_not, Bool.not_true]
        refine ⟨⟨?_, hwt⟩, wf_writeIn hwrest hrest⟩
        cases hx : rest2.hasName a with
        | false => rfl
        | true =>
          rcases (hasName_writeIn hrest a).1 hx with hr | rfl
          · rw [hr] at hname; cases hname
          · exact absurd rfl ha
  | .cons a (.file c0) rest, m, q :: qs, c, es2, hwf, h => by
    rw [wfE_cons_eq] at hwf
    simp only [Bool.and_eq_true, Bool.not_eq_eq_eq_not, Bool.not_true] at hwf
    obtain ⟨⟨hname, hwt⟩, hwrest⟩ := hwf
    rw [writeIn_cons_file_cons_eq] at h
    by_cases ha : a = m
    · rw [if_pos ha] at h; cases h
    · rw [if_neg ha] at h
      cases hrest : Entries.writeIn rest m (q :: qs) c with
      | none => rw [hrest] at h; cases h
      | some rest2 =>
        rw [hrest] at h
        cases h
        rw [wfE_cons_eq]
        simp only [Bool.and_eq_true, Bool.not_eq_eq_eq_not, Bool.not_true]
        refine ⟨⟨?_, hwt⟩, wf_writeIn hwrest hrest⟩
        cases hx : rest2.hasName a with
        | false => rfl
        | true =>
          rcases (hasName_writeIn hrest a).1 hx with hr | rfl
          · rw [hr] at hname; cases hname
          · exact absurd rfl ha
  | .cons a (.dir sub) rest, m, q :: qs, c, es2, hwf, h => by
    rw [wfE_cons_eq] at hwf
    simp only [Bool.and_eq_true, Bool.not_eq_eq_eq_not, Bool.not_true] at hwf
    obtain ⟨⟨hname, hwt⟩, hwrest⟩ := hwf
    rw [writeIn_cons_dir_cons_eq] at h
    by_cases ha : a = m
    · rw [if_pos ha] at h
      cases hsub : Entries.writeIn sub q qs c with
      | none => rw [hsub] at h; cases h
      | some sub2 =>
        rw [hsub] at h
        cases h
        rw [wfE_cons_eq]
        simp only [Bool.and_eq_true, Bool.not_eq_eq_eq_not, Bool.not_true]
        refine ⟨⟨hname, ?_⟩, hwrest⟩
        rw [wf_dir_eq]
        exact wf_writeIn (by rw [wf_dir_eq] at hwt; exact hwt) hsub
    · rw [if_neg ha] at h
      cases hrest : Entries.writeIn rest m (q :: qs) c with
      | none => rw [hrest] at h; cases h
      | some rest2 =>
        rw [hrest] at h
        cases h
        rw [wfE_cons_eq]
        simp only [Bool.and_eq_true, Bool.not_eq_eq_eq_not, Bool.not_true]
        refine ⟨⟨?_, hwt⟩, wf_writeIn hwrest hrest⟩
        cases hx : rest2.hasName a with
        | false => rfl
        | true =>
          rcases (hasName_writeIn hrest a).1 hx with hr | rfl
          · rw [hr] at hname; cases hname
          · exact absurd rfl ha
termination_by es m qs c es2 hwf h => (sizeOf es, qs.length)

theorem wf_writePath {t : FSTree} {q : List String} {c : String} {t2 : FSTree}
    (hwf : t.wf = true) (h : t.writePath q c = some t2) : t2.wf = true := by
  cases t with
  | file c0 => rw [writePath_file_eq] at h; cases h
  | dir es =>
    cases q with
    | nil => rw [writePath_dir_nil_eq] at h; cases h
    | cons n qs =>
      rw [writePath_dir_cons_eq] at h
      cases hes : Entries.writeIn es n qs c with
      | none => rw [hes] at h; cases h
      | some es2 =>
        rw [hes] at h
        cases h
        rw [wf_dir_eq]
        exact wf_writeIn (by rw [wf_dir_eq] at hwf; exact hwf) hes

theorem lookupIn_append_file :
    ∀ {es : Entries} {n : String} {qs : List String} {c : String}
      (a : String) (as : List String),
      Entries.lookupIn es n qs = some c →
      Entries.lookupIn es n (qs ++ a :: as) = none
  | .nil, n, qs, c, a, as, h => by rw [lookupIn_nil_eq] at h; cases h
  | .cons m t rest, n, qs, c, a, as, h => by
    rw [lookupIn_cons_eq] at h ⊢
    by_cases hm : m = n
    · rw [if_pos hm] at h ⊢
      cases t with
      | file c0 =>
        cases qs with
        | nil => rw [List.nil_append, lookup_file_cons_eq]
        | cons b bs => rw [lookup_file_cons_eq] at h; cases h
      | dir sub =>
        cases qs with
        | nil => rw [lookup_dir_nil_eq] at h; cases h
        | cons b bs =>
          rw [lookup_dir_cons_eq] at h
          rw [List.cons_append, lookup_dir_cons_eq]
          exact lookupIn_append_file a as h
    · rw [if_neg hm] at h ⊢
      exact lookupIn_append_file a as h
termination_by es n qs c a as h => (qs.length, sizeOf es)

theorem lookup_append_file {t : FSTree} {q : List String} {c : String}
    (a : String) (as : List String) (h : t.lookup q = some c) :
    t.lookup (q ++ a :: as) = none := by
  cases q with
  | nil =>
    cases t with
    | file c0 => rw [List.nil_append, lookup_file_cons_eq]
    | dir es => rw [lookup_dir_nil_eq] at h; cases h
  | cons n qs =>
    cases t with
    | file c0 => rw [lookup_file_cons_eq] at h; cases h
    | dir es =>
      rw [lookup_dir_cons_eq] at h
      rw [List.cons_append, lookup_dir_cons_eq]
      exact lookupIn_append_file a as h

theorem lookup_strict_prefix_file {t : FSTree} {q p : List String} {c : String}
    (hlook : t.lookup q = some c) (hqp : q <+: p) (hne : q ≠ p) :
    t.lookup p = none := by
  obtain ⟨tail, rfl⟩ := hqp
  cases tail with
  | nil => exact absurd (by simp) hne
  | cons a as => exact lookup_append_file a as hlook

theorem wf_deletePhase : ∀ (ps : List (List String)) (t : FSTree),
    t.wf = true → (deletePhase ps t).1.wf = true
  | [], t, hwf => hwf
  | p :: ps, t, hwf => wf_deletePhase ps (t.removePath p) (wf_removePath hwf p)

theorem deletePhase_lookup : ∀ (ps : List (List String)) (t : FSTree),
    t.wf = true → (∀ q ∈ ps, q ≠ []) → ∀ p,
    (deletePhase ps t).1.lookup p
      = if ∃ q ∈ ps, q <+: p then none else t.lookup p
  | [], t, _, _, p => by simp [deletePhase]
  | p0 :: ps, t, hwf, hne, p => by
    show (deletePhase ps (t.removePath p0)).1.lookup p = _
    rw [deletePhase_lookup ps (t.removePath p0) (wf_removePath hwf p0)
      (fun q hq => hne q (List.mem_cons_of_mem p0 hq)) p]
    rw [lookup_removePath hwf (hne p0 (List.mem_cons_self p0 ps)) p]
    by_cases hA : ∃ q ∈ ps, q <+: p
    · rw [if_pos hA, if_pos (show ∃ q ∈ p0 :: ps, q <+: p by
        obtain ⟨q, hq, hqp⟩ := hA
        exact ⟨q, List.mem_cons_of_mem p0 hq, hqp⟩)]
    · rw [if_neg hA]
      by_cases h0 : p0 <+: p
      · rw [if_pos h0, if_pos (show ∃ q ∈ p0 :: ps, q <+: p from
          ⟨p0, List.mem_cons_self p0 ps, h0⟩)]
      · rw [if_neg h0, if_neg (show ¬∃ q ∈ p0 :: ps, q <+: p by
          rintro ⟨q, hq, hqp⟩
          rcases List.mem_cons.1 hq with rfl | hq2
          · exact h0 hqp
          · exact hA ⟨q, hq2, hqp⟩)]

theorem copyPhase_nil_eq (snapT t : FSTree) : copyPhase snapT [] t = (t, 0, 0) := rfl

theorem copyPhase_cons_skip {p : List String}
    (hsk : relString p = manifestFileName ∨ relString p = vibesyncBaseName)
    (snapT : FSTree) (ps : List (List String)) (t : FSTree) :
    copyPhase snapT (p :: ps) t = copyPhase snapT ps t := by
  rw [copyPhase, if_pos (by simpa using hsk)]

theorem copyPhase_cons_none {snapT : FSTree} {p : List String}
    (hsk : ¬(relString p = manifestFileName ∨ relString p = vibesyncBaseName))
    (hl : snapT.lookup p = none) (ps : List (List String)) (t : FSTree) :
    copyPhase snapT (p :: ps) t
      = ((copyPhase snapT ps t).1, (copyPhase snapT ps t).2.1,
         (copyPhase snapT ps t).2.2 + 1) := by
  rw [copyPhase, if_neg (by simpa using hsk)]
  simp only [hl]

theorem copyPhase_cons_write {snapT : FSTree} {p : List String} {c : String}
    {t t2 : FSTree}
    (hsk : ¬(relString p = manifestFileName ∨ relString p = vibesyncBaseName))
    (hl : snapT.lookup p = some c) (hw : t.writePath p c = some t2)
    (ps : List (List String)) :
    copyPhase snapT (p :: ps) t
      = ((copyPhase snapT ps t2).1, (copyPhase snapT ps t2).2.1 + 1,
         (copyPhase snapT ps t2).2.2) := by
  rw [copyPhase, if_neg (by simpa using hsk)]
  simp only [hl, hw]

theorem copyPhase_cons_fail {snapT : FSTree} {p : List String} {c : String}
    {t : FSTree}
    (hsk : ¬(relString p = manifestFileName ∨ relString p = vibesyncBaseName))
    (hl : snapT.lookup p = some c) (hw : t.writePath p c = none)
    (ps : List (List String)) :
    copyPhase snapT (p :: ps) t
      = ((copyPhase snapT ps t).1, (copyPhase snapT ps t).2.1,
         (copyPhase snapT ps t).2.2 + 1) := by
  rw [copyPhase, if_neg (by simpa using hsk)]
  simp only [hl, hw]

theorem wf_copyPhase (snapT : FSTree) : ∀ (ps : List (List String)) (t : FSTree),
    t.wf = true → (copyPhase snapT ps t).1.wf = true
  | [], t, hwf => hwf
  | p :: ps, t, hwf => by
    by_cases hsk : relString p = manifestFileName ∨ relString p = vibesyncBaseName
    · rw [copyPhase_cons_skip hsk]
      exact wf_copyPhase snapT ps t hwf
    · cases hl : snapT.lookup p with
      | none =>
        rw [copyPhase_cons_none hsk hl]
        exact wf_copyPhase snapT ps t hwf
      | some c =>
        cases hw : t.writePath p c with
        | none =>
          rw [copyPhase_cons_fail hsk hl hw]
          exact wf_copyPhase snapT ps t hwf
        | some t2 =>
          rw [copyPhase_cons_write hsk hl hw]
          exact wf_copyPhase snapT ps t2 (wf_writePath hwf hw)

theorem copyPhase_lookup (snapT : FSTree) :
    ∀ (ps : List (List String)) (t : FSTree), t.wf = true →
    (copyPhase snapT ps t).2.2 = 0 → ∀ p,
    (copyPhase snapT ps t).1.lookup p
      = if p ∈ ps ∧ ¬(relString p = manifestFileName ∨
            relString p = vibesyncBaseName)
        then snapT.lookup p else t.lookup p
  | [], t, _, _, p => by simp [copyPhase_nil_eq]
  | p0 :: ps, t, hwf, herr, p => by
    by_cases hsk0 : relString p0 = manifestFileName ∨ relString p0 = vibesyncBaseName
    · rw [copyPhase_cons_skip hsk0] at herr ⊢
      rw [copyPhase_lookup snapT ps t hwf herr p]
      by_cases hC : p ∈ ps ∧ ¬(relString p = manifestFileName ∨
          relString p = vibesyncBaseName)
      · rw [if_pos hC, if_pos ⟨List.mem_cons_of_mem p0 hC.1, hC.2⟩]
      · rw [if_neg hC, if_neg (by
          rintro ⟨hmem, hns⟩
          rcases List.mem_cons.1 hmem with rfl | hmem2
          · exact hns hsk0
          · exact hC ⟨hmem2, hns⟩)]
    · cases hl : snapT.lookup p0 with
      | none =>
        rw [copyPhase_cons_none hsk0 hl] at herr
        cases herr
      | some c0 =>
        cases hw : t.writePath p0 c0 with
        | none =>
          rw [copyPhase_cons_fail hsk0 hl hw] at herr
          cases herr
        | some t2 =>
          rw [copyPhase_cons_write hsk0 hl hw] at herr ⊢
          rw [copyPhase_lookup snapT ps t2 (wf_writePath hwf hw) herr p,
            lookup_writePath hw p]
          by_cases hC : p ∈ ps ∧ ¬(relString p = manifestFileName ∨
              relString p = vibesyncBaseName)
          · rw [if_pos hC, if_pos ⟨List.mem_cons_of_mem p0 hC.1, hC.2⟩]
          · rw [if_neg hC]
            by_cases hp0 : p = p0
            · subst hp0
              rw [if_pos rfl, if_pos ⟨List.mem_cons_self p ps, hsk0⟩, hl]
            · rw [if_neg hp0, if_neg (by
                rintro ⟨hmem, hns⟩
                rcases List.mem_cons.1 hmem with rfl | hmem2
                · exact hp0 rfl
                · exact hC ⟨hmem2, hns⟩)]

theorem copyPhase_lookup_notin (snapT : FSTree) :
    ∀ (ps : List (List String)) (t : FSTree) (p : List String), p ∉ ps →
    (copyPhase snapT ps t).1.lookup p = t.lookup p
  | [], t, p, _ => rfl
  | p0 :: ps, t, p, hp => by
    have hp2 : p ∉ ps := fun h => hp (List.mem_cons_of_mem p0 h)
    have hp0 : p ≠ p0 := fun h => hp (h ▸ List.mem_cons_self p0 ps)
    by_cases hsk0 : relString p0 = manifestFileName ∨ relString p0 = vibesyncBaseName
    · rw [copyPhase_cons_skip hsk0]
      exact copyPhase_lookup_notin snapT ps t p hp2
    · cases hl : snapT.lookup p0 with
      | none =>
        rw [copyPhase_cons_none hsk0 hl]
        exact copyPhase_lookup_notin snapT ps t p hp2
      | some c0 =>
        cases hw : t.writePath p0 c0 with
        | none =>
          rw [copyPhase_cons_fail hsk0 hl hw]
          exact copyPhase_lookup_notin snapT ps t p hp2
        | some t2 =>
          rw [copyPhase_cons_write hsk0 hl hw]
          rw [copyPhase_lookup_notin snapT ps t2 p hp2,
            lookup_writePath hw p, if_neg hp0]

theorem captureCopy_nil_eq (T s : FSTree) : captureCopy T [] s = (s, [], 0, 0) := rfl

theorem captureCopy_cons_none {T : FSTree} {p : List String}
    (hl : T.lookup p = none) (ps : List (List String)) (s : FSTree) :
    captureCopy T (p :: ps) s
      = ((captureCopy T ps s).1, .fileCopy p :: (captureCopy T ps s).2.1,
         (captureCopy T ps s).2.2.1, (captureCopy T ps s).2.2.2 + 1) := by
  rw [captureCopy]
  simp only [hl]

theorem captureCopy_cons_write {T : FSTree} {p : List String} {c : String}
    {s s2 : FSTree} (hl : T.lookup p = some c) (hw : s.writePath p c = some s2)
    (ps : List (List String)) :
    captureCopy T (p :: ps) s
      = ((captureCopy T ps s2).1, .fileCopy p :: (captureCopy T ps s2).2.1,
         (captureCopy T ps s2).2.2.1 + 1, (captureCopy T ps s2).2.2.2) := by
  rw [captureCopy]
  simp only [hl, hw]

theorem captureCopy_cons_fail {T : FSTree} {p : List String} {c : String}
    {s : FSTree} (hl : T.lookup p = some c) (hw : s.writePath p c = none)
    (ps : List (List String)) :
    captureCopy T (p :: ps) s
      = ((captureCopy T ps s).1, .fileCopy p :: (captureCopy T ps s).2.1,
         (captureCopy T ps s).2.2.1, (captureCopy T ps s).2.2.2 + 1) := by
  rw [captureCopy]
  simp only [hl, hw]

theorem captureCopy_events (T : FSTree) : ∀ (ps : List (List String)) (s : FSTree),
    (captureCopy T ps s).2.1 = ps.map CapEvent.fileCopy
  | [], s => rfl
  | p :: ps, s => by
    cases hl : T.lookup p with
    | none => rw [captureCopy_cons_none hl, List.map_cons, captureCopy_events T ps s]
    | some c =>
      cases hw : s.writePath p c with
      | none => rw [captureCopy_cons_fail hl hw, List.map_cons, captureCopy_events T ps s]
      | some s2 => rw [captureCopy_cons_write hl hw, List.map_cons, captureCopy_events T ps s2]

theorem wf_captureCopy (T : FSTree) : ∀ (ps : List (List String)) (s : FSTree),
    s.wf = true → (captureCopy T ps s).1.wf = true
  | [], s, hwf => hwf
  | p :: ps, s, hwf => by
    cases hl : T.lookup p with
    | none =>
      rw [captureCopy_cons_none hl]
      exact wf_captureCopy T ps s hwf
    | some c =>
      cases hw : s.writePath p c with
      | none =>
        rw [captureCopy_cons_fail hl hw]
        exact wf_captureCopy T ps s hwf
      | some s2 =>
        rw [captureCopy_cons_write hl hw]
        exact wf_captureCopy T ps s2 (wf_writePath hwf hw)

theorem captureCopy_lookup (T : FSTree) :
    ∀ (ps : List (List String)) (s : FSTree), (captureCopy T ps s).2.2.2 = 0 →
    ∀ p, (captureCopy T ps s).1.lookup p
      = if p ∈ ps then T.lookup p else s.lookup p
  | [], s, _, p => by simp [captureCopy_nil_eq]
  | p0 :: ps, s, herr, p => by
    cases hl : T.lookup p0 with
    | none =>
      rw [captureCopy_cons_none hl] at herr
      cases herr
    | some c0 =>
      cases hw : s.writePath p0 c0 with
      | none =>
        rw [captureCopy_cons_fail hl hw] at herr
        cases herr
      | some s2 =>
        rw [captureCopy_cons_write hl hw] at herr ⊢
        rw [captureCopy_lookup T ps s2 herr p, lookup_writePath hw p]
        by_cases hmem : p ∈ ps
        · rw [if_pos hmem, if_pos (List.mem_cons_of_mem p0 hmem)]
        · rw [if_neg hmem]
          by_cases hp0 : p = p0
          · subst hp0
            rw [if_pos rfl, if_pos (List.mem_cons_self p ps), hl]
          · rw [if_neg hp0, if_neg (by
              rintro hmem2
              rcases List.mem_cons.1 hmem2 with rfl | h2
              · exact hp0 rfl
              · exact hmem h2)]

theorem captureCopy_lookup_some_inv (T : FSTree) :
    ∀ (ps : List (List String)) (s : FSTree) (p : List String) (c : String),
    (captureCopy T ps s).1.lookup p = some c →
    p ∈ ps ∨ s.lookup p = some c
  | [], s, p, c, h => Or.inr h
  | p0 :: ps, s, p, c, h => by
    cases hl : T.lookup p0 with
    | none =>
      rw [captureCopy_cons_none hl] at h
      rcases captureCopy_lookup_some_inv T ps s p c h with hin | hs
      · exact Or.inl (List.mem_cons_of_mem p0 hin)
      · exact Or.inr hs
    | some c0 =>
      cases hw : s.writePath p0 c0 with
      | none =>
        rw [captureCopy_cons_fail hl hw] at h
        rcases captureCopy_lookup_some_inv T ps s p c h with hin | hs
        · exact Or.inl (List.mem_cons_of_mem p0 hin)
        · exact Or.inr hs
      | some s2 =>
        rw [captureCopy_cons_write hl hw] at h
        rcases captureCopy_lookup_some_inv T ps s2 p c h with hin | hs
        · exact Or.inl (List.mem_cons_of_mem p0 hin)
        · rw [lookup_writePath hw p] at hs
          by_cases hp0 : p = p0
          · exact Or.inl (hp0 ▸ List.mem_cons_self p0 ps)
          · rw [if_neg hp0] at hs
            exact Or.inr hs

theorem substr_trans {a b c : String} (h1 : substr a b = true)
    (h2 : substr b c = true) : substr a c = true := by
  simp only [substr, decide_eq_true_eq] at h1 h2 ⊢
  exact h1.trans h2

theorem pathExcluded_of_seg_substr {root pat s : String} {pats : List String}
    {p : List String} (hmem : s ∈ p) (hs : substr pat s = true)
    (hpat : pat ∈ pats) : pathExcluded root pats p = true := by
  simp only [pathExcluded, List.any_eq_true]
  exact ⟨pat, hpat, substr_trans hs (substr_of_mem_joinPath hmem)⟩

theorem relString_no_slash_single {p : List String} {x : String}
    (h : relString p = x) (hx : ¬ '/' ∈ x.data) (hne : x ≠ "") : p = [x] := by
  cases p with
  | nil => exact absurd h.symm hne
  | cons s rest =>
    cases rest with
    | nil => rw [show relString [s] = s from rfl] at h; rw [h]
    | cons b bs =>
      exfalso
      apply hx
      rw [← h]
      show '/' ∈ (s ++ "/" ++ relString (b :: bs)).data
      rw [String.data_append, String.data_append]
      simp [show ("/" : String).data = ['/'] from rfl]

theorem dotVibesync_mem_defaults : ".vibesync" ∈ defaultIgnorePatterns := by decide

theorem notCopySkip_of_notExcluded {W : String} {custom : List String}
    {p : List String}
    (hpe : pathExcluded W (defaultIgnorePatterns ++ custom) p = false) :
    ¬(relString p = manifestFileName ∨ relString p = vibesyncBaseName) := by
  rintro (h | h)
  · have hp : p = [manifestFileName] :=
      relString_no_slash_single h (by decide) (by decide)
    rw [pathExcluded_of_seg_substr (s := manifestFileName)
      (by rw [hp]; exact List.mem_singleton.2 rfl) (by decide)
      (List.mem_append_left custom dotVibesync_mem_defaults)] at hpe
    cases hpe
  · have hp : p = [vibesyncBaseName] :=
      relString_no_slash_single h (by decide) (by decide)
    rw [pathExcluded_of_seg_substr (s := vibesyncBaseName)
      (by rw [hp]; exact List.mem_singleton.2 rfl) (by decide)
      (List.mem_append_left custom dotVibesync_mem_defaults)] at hpe
    cases hpe

/-- The snapshot tree right after the manifest write, before any file copy. -/
def snapBase : FSTree :=
  .dir (.cons manifestFileName (.file "manifest-json") .nil)

theorem takeSimpleSnapshot_snap_files (W : String) (custom : List String)
    (idStr nameStr : String) (ts : Nat) (T : FSTree) :
    (takeSimpleSnapshot W custom idStr nameStr ts T).snap.files
      = (captureCopy T
          (getFilesRecursively W (defaultIgnorePatterns ++ custom) T [] 0 100)
          snapBase).1 := rfl

theorem takeSimpleSnapshot_manifest (W : String) (custom : List String)
    (idStr nameStr : String) (ts : Nat) (T : FSTree) :
    (takeSimpleSnapshot W custom idStr nameStr ts T).snap.manifest
      = some { id := idStr, name := nameStr, timestamp := ts,
               ignorePatterns := some (defaultIgnorePatterns ++ custom) } := rfl

theorem takeSimpleSnapshot_errors (W : String) (custom : List String)
    (idStr nameStr : String) (ts : Nat) (T : FSTree) :
    (takeSimpleSnapshot W custom idStr nameStr ts T).errors
      = (captureCopy T
          (getFilesRecursively W (defaultIgnorePatterns ++ custom) T [] 0 100)
          snapBase).2.2.2 := rfl

theorem takeSimpleSnapshot_events (W : String) (custom : List String)
    (idStr nameStr : String) (ts : Nat) (T : FSTree) :
    (takeSimpleSnapshot W custom idStr nameStr ts T).events
      = .manifestWrite :: (captureCopy T
          (getFilesRecursively W (defaultIgnorePatterns ++ custom) T [] 0 100)
          snapBase).2.1 := rfl

theorem snapBase_wf : snapBase.wf = true := by decide

theorem snapBase_lookup (p : List String) :
    snapBase.lookup p
      = if p = [manifestFileName] then some "manifest-json" else none := by
  cases p with
  | nil => rw [show snapBase.lookup [] = none from rfl, if_neg (by simp)]
  | cons n rest =>
    show Entries.lookupIn _ n rest = _
    rw [lookupIn_cons_eq]
    by_cases hn : manifestFileName = n
    · subst hn
      rw [if_pos rfl]
      cases rest with
      | nil => rw [lookup_file_nil_eq, if_pos rfl]
      | cons b bs =>
        rw [lookup_file_cons_eq, if_neg (by simp)]
    · rw [if_neg hn, lookupIn_nil_eq, if_neg (by
        rintro h
        cases h
        exact hn rfl)]

theorem restoreSimpleSnapshot_run_eq (W vd : String) (custom : List String)
    (index : List String) (store : String → Option SnapState) (id : String)
    (live : FSTree) {snap : SnapState} {mani : Manifest} {ps : List String}
    (hs : store id = some snap) (hm : snap.manifest = some mani)
    (hp : mani.ignorePatterns = some ps) :
    restoreSimpleSnapshot W vd custom index store id live
      = { ok := true,
          tree := (copyPhase snap.files
            (getFilesRecursively (joinPath vd [id])
              [manifestFileName, vibesyncBaseName] snap.files [] 0 100)
            (deletePhase (getFilesRecursively W ps live [] 0 100) live).1).1,
          deleted := (deletePhase (getFilesRecursively W ps live [] 0 100) live).2,
          copied := (copyPhase snap.files
            (getFilesRecursively (joinPath vd [id])
              [manifestFileName, vibesyncBaseName] snap.files [] 0 100)
            (deletePhase (getFilesRecursively W ps live [] 0 100) live).1).2.1,
          copyErrors := (copyPhase snap.files
            (getFilesRecursively (joinPath vd [id])
              [manifestFileName, vibesyncBaseName] snap.files [] 0 100)
            (deletePhase (getFilesRecursively W ps live [] 0 100) live).1).2.2 } := by
  simp only [restoreSimpleSnapshot, hs, hm, hp]

theorem restoreSimpleSnapshot_no_dir (W vd : String) (custom : List String)
    (index : List String) (store : String → Option SnapState) (id : String)
    (live : FSTree) (hs : store id = none) :
    restoreSimpleSnapshot W vd custom index store id live
      = { ok := false, tree := live, deleted := 0, copied := 0,
          copyErrors := 0 } := by
  simp only [restoreSimpleSnapshot, hs]

theorem restoreSimpleSnapshot_no_manifest (W vd : String) (custom : List String)
    (index : List String) (store : String → Option SnapState) (id : String)
    (live : FSTree) {snap : SnapState} (hs : store id = some snap)
    (hm : snap.manifest = none) :
    restoreSimpleSnapshot W vd custom index store id live
      = { ok := false, tree := live, deleted := 0, copied := 0,
          copyErrors := 0 } := by
  simp only [restoreSimpleSnapshot, hs, hm]

/-- C10: in batch-mode restore the computed copy-phase batch size is 100 for
every snapshot file count of at most 5000 and 50 for every count above 5000,
and the 20-file tier is never selected, because its guard (count > 10000) is
only reached when the preceding guard (count > 5000) is false. -/
theorem c10_batch_size_tiers (n : Nat) :
    (n ≤ 5000 → restoreBatchSize n = 100) ∧
    (5000 < n → restoreBatchSize n = 50) ∧
    restoreBatchSize n ≠ 20 := by
  unfold restoreBatchSize
  by_cases h5 : n > 5000
  · rw [if_pos h5]
    exact ⟨fun h => absurd h5 (by omega), fun _ => rfl, by decide⟩
  · rw [if_neg h5, if_neg (by omega)]
    exact ⟨fun _ => rfl, fun h => absurd h h5, by decide⟩

/-- Witness for `c10_batch_size_tiers` at concrete file counts. -/
theorem c10_batch_size_tiers_witness :
    restoreBatchSize 3000 = 100 ∧ restoreBatchSize 6000 = 50 ∧
    restoreBatchSize 20000 ≠ 20 :=
  ⟨(c10_batch_size_tiers 3000).1 (by decide),
   (c10_batch_size_tiers 6000).2.1 (by decide),
   (c10_batch_size_tiers 20000).2.2⟩

/-- C5 counterexample: the claim that a restore requested while a capture is
in flight is always rejected (capture and restore sharing one in-flight flag)
is false: with the capture flag set and the cooldown elapsed (state
`isSaveInProgress = true, lastOperation = 0`, request at `now = 5000`), the
restore guard admits the restore, because the two operations use separate
flags and the restore guard only checks its own. -/
theorem c5_counterexample :
    (tryRestore ⟨false, true, 0⟩ 5000).1 = true ∧
    ¬ (∀ (st : SyncState) (now : Nat), st.isSaveInProgress = true →
        (tryRestore st now).1 = false) := by
  refine ⟨by decide, fun h => ?_⟩
  have h2 := h ⟨false, true, 0⟩ 5000 rfl
  rw [(by decide : (tryRestore ⟨false, true, 0⟩ 5000).1 = true)] at h2
  cases h2

/-- C5 amended: capture and restore are guarded by separate in-flight flags
plus a shared 2000ms cooldown: a second capture during a capture is rejected
with the state unchanged, a second restore during a restore likewise, and any
request inside the cooldown window is rejected; but a restore during a
capture (or a capture during a restore) is admitted once the cooldown has
elapsed — the flags are not shared. -/
theorem c5_amended_guards (st : SyncState) (now : Nat) :
    (st.isSaveInProgress = true → trySave st now = (false, st)) ∧
    (st.isRestoreInProgress = true → tryRestore st now = (false, st)) ∧
    (now - st.lastOperation < OPERATION_COOLDOWN_MS →
      trySave st now = (false, st) ∧ tryRestore st now = (false, st)) ∧
    (st.isSaveInProgress = true → st.isRestoreInProgress = false →
      OPERATION_COOLDOWN_MS ≤ now - st.lastOperation →
      (tryRestore st now).1 = true) := by
  unfold trySave tryRestore
  by_cases hcd : now - st.lastOperation < OPERATION_COOLDOWN_MS
  · rw [if_pos hcd, if_pos hcd]
    exact ⟨fun _ => rfl, fun _ => rfl, fun _ => ⟨rfl, rfl⟩,
      fun _ _ h => absurd hcd (by omega)⟩
  · rw [if_neg hcd, if_neg hcd]
    refine ⟨fun hs => by rw [if_pos hs], fun hr => by rw [if_pos hr],
      fun h => absurd h hcd, fun hs hr hle => by rw [hr]; rfl⟩

/-- Witness for `c5_amended_guards` at a concrete state. -/
theorem c5_amended_guards_witness :
    trySave ⟨false, true, 0⟩ 5000 = (false, ⟨false, true, 0⟩) ∧
    (tryRestore ⟨false, true, 0⟩ 5000).1 = true :=
  ⟨(c5_amended_guards ⟨false, true, 0⟩ 5000).1 rfl,
   (c5_amended_guards ⟨false, true, 0⟩ 5000).2.2.2 rfl rfl (by decide)⟩

theorem copyRetryGo_spec (fails : Nat → Bool) (maxA : Nat) :
    ∀ (fuel a : Nat),
      (copyRetryGo fails maxA a fuel).2.1 ≤ a + fuel ∧
      (∀ i d, (copyRetryGo fails maxA a fuel).2.2.get? i = some d →
        d = copyBackoffDelay (a + i + 1)) ∧
      ((∀ k, fails k = true) → (copyRetryGo fails maxA a fuel).1 = false)
  | 0, a => by
    refine ⟨by rw [copyRetryGo]; exact Nat.le_add_right a 0, ?_, fun _ => rfl⟩
    intro i d hd
    rw [copyRetryGo] at hd
    simp at hd
  | fuel + 1, a => by
    rw [copyRetryGo]
    by_cases hf : fails a = true
    · rw [if_pos hf]
      by_cases hm : maxA ≤ a + 1
      · rw [if_pos hm]
        exact ⟨le_trans (Nat.le_refl (a + 1)) (by omega),
          fun i d hd => by simp at hd, fun _ => rfl⟩
      · rw [if_neg hm]
        obtain ⟨h1, h2, h3⟩ := copyRetryGo_spec fails maxA fuel (a + 1)
        refine ⟨le_trans h1 (by omega), ?_, h3⟩
        intro i d hd
        cases i with
        | zero =>
          rw [List.get?_cons_zero] at hd
          cases hd
          rfl
        | succ j =>
          rw [List.get?_cons_succ] at hd
          rw [h2 j d hd]
          congr 1
          omega
    · rw [if_neg hf]
      exact ⟨le_trans (Nat.le_refl (a + 1)) (by omega),
        fun i d hd => by simp at hd, fun hall => absurd (hall a) hf⟩

theorem streamRetryGo_spec (fails : Nat → Bool) (maxR : Nat) :
    ∀ (fuel a : Nat),
      (streamRetryGo fails maxR a fuel).2.1 ≤ a + fuel ∧
      (∀ i d, (streamRetryGo fails maxR a fuel).2.2.get? i = some d →
        d = 500 * (max a 1 + i)) ∧
      ((∀ k, fails k = true) → (streamRetryGo fails maxR a fuel).1 = false)
  | 0, a => by
    refine ⟨by rw [streamRetryGo]; exact Nat.le_add_right a 0, ?_, fun _ => rfl⟩
    intro i d hd
    rw [streamRetryGo] at hd
    simp at hd
  | fuel + 1, a => by
    rw [streamRetryGo]
    by_cases hf : fails a = true
    · rw [if_pos hf]
      by_cases hm : a = maxR
      · rw [if_pos hm]
        refine ⟨le_trans (Nat.le_refl (a + 1)) (by omega), ?_, fun _ => rfl⟩
        intro i d hd
        by_cases ha : 0 < a
        · rw [if_pos ha] at hd
          cases i with
          | zero =>
            simp only [List.get?_cons_zero, Option.some.injEq] at hd
            rw [← hd, Nat.max_eq_left ha, Nat.add_zero]
          | succ j =>
            simp only [List.get?_cons_succ, List.get?_nil] at hd
            cases hd
        · rw [if_neg ha] at hd
          simp at hd
      · rw [if_neg hm]
        obtain ⟨h1, h2, h3⟩ := streamRetryGo_spec fails maxR fuel (a + 1)
        refine ⟨le_trans h1 (by omega), ?_, h3⟩
        intro i d hd
        by_cases ha : 0 < a
        · rw [if_pos ha] at hd
          simp only [List.singleton_append] at hd
          cases i with
          | zero =>
            simp only [List.get?_cons_zero, Option.some.injEq] at hd
            rw [← hd, Nat.max_eq_left ha, Nat.add_zero]
          | succ j =>
            simp only [List.get?_cons_succ] at hd
            rw [h2 j d hd, Nat.max_eq_left (by omega), Nat.max_eq_left ha]
            ring
        · rw [if_neg ha] at hd
          simp only [List.nil_append] at hd
          have ha0 : a = 0 := by omega
          subst ha0
          rw [h2 i d hd]
          norm_num
    · rw [if_neg hf]
      refine ⟨le_trans (Nat.le_refl (a + 1)) (by omega), ?_,
        fun hall => absurd (hall a) hf⟩
      intro i d hd
      by_cases ha : 0 < a
      · rw [if_pos ha] at hd
        cases i with
        | zero =>
          simp only [List.get?_cons_zero, Option.some.injEq] at hd
          rw [← hd, Nat.max_eq_left ha, Nat.add_zero]
        | succ j =>
          simp only [List.get?_cons_succ, List.get?_nil] at hd
          cases hd
      · rw [if_neg ha] at hd
        simp at hd

/-- C6 counterexample: the claim that the stream-based restore copy variant
obeys the same attempt bound and backoff policy as `copyFileWithRetry` is
false: with every attempt failing and `maxAttempts = 3`, `copyFileWithRetry`
performs 3 attempts with delays 200ms and 400ms, while the stream variant
performs 4 attempts (its loop runs `attempt = 0 .. maxRetries` inclusive)
with linear delays 500ms, 1000ms, 1500ms. -/
theorem c6_counterexample :
    copyFileWithRetry (fun _ => true) 3 = (false, 3, [200, 400]) ∧
    copyFileWithRetryStream (fun _ => true) 3 = (false, 4, [500, 1000, 1500]) ∧
    ¬ (∀ (fails : Nat → Bool) (m : Nat),
        (copyFileWithRetryStream fails m).2.1 ≤ m) := by
  refine ⟨by decide, by decide, fun h => ?_⟩
  have h2 := h (fun _ => true) 3
  rw [(by decide : (copyFileWithRetryStream (fun _ => true) 3).2.1 = 4)] at h2
  omega

/-- C6 amended: `copyFileWithRetry` performs at most `maxAttempts` attempts,
waits `min(100·2^(k+1), 2000)` ms before the (k+2)-th attempt, and reports
exhausted failure as `false`; the stream-based restore variant instead
performs up to `maxAttempts + 1` attempts with linear delays of
`500·k` ms before the (k+1)-th attempt, likewise returning `false` — both
return failure as a value, never an exception. -/
theorem c6_amended_retry_policy (fails : Nat → Bool) (m : Nat) :
    (copyFileWithRetry fails m).2.1 ≤ m ∧
    (∀ i d, (copyFileWithRetry fails m).2.2.get? i = some d →
      d = min (100 * 2 ^ (i + 1)) 2000) ∧
    ((∀ k, fails k = true) → (copyFileWithRetry fails m).1 = false) ∧
    (copyFileWithRetryStream fails m).2.1 ≤ m + 1 ∧
    (∀ i d, (copyFileWithRetryStream fails m).2.2.get? i = some d →
      d = 500 * (i + 1)) ∧
    ((∀ k, fails k = true) → (copyFileWithRetryStream fails m).1 = false) := by
  obtain ⟨h1, h2, h3⟩ := copyRetryGo_spec fails m m 0
  obtain ⟨g1, g2, g3⟩ := streamRetryGo_spec fails m (m + 1) 0
  refine ⟨by simpa using h1, ?_, h3, by simpa using g1, ?_, g3⟩
  · intro i d hd
    rw [h2 i d hd, copyBackoffDelay, Nat.zero_add]
  · intro i d hd
    rw [g2 i d hd, Nat.zero_max]
    ring

/-- Witness for `c6_amended_retry_policy` at a concrete oracle and bound. -/
theorem c6_amended_retry_policy_witness :
    (copyFileWithRetry (fun _ => true) 3).2.1 ≤ 3 ∧
    (copyFileWithRetry (fun _ => true) 3).1 = false ∧
    (copyFileWithRetryStream (fun _ => true) 3).2.1 ≤ 4 ∧
    (copyFileWithRetryStream (fun _ => true) 3).2.2.get? 2 = some (500 * (2 + 1)) :=
  ⟨(c6_amended_retry_policy (fun _ => true) 3).1,
   (c6_amended_retry_policy (fun _ => true) 3).2.2.1 (fun _ => rfl),
   (c6_amended_retry_policy (fun _ => true) 3).2.2.2.1,
   by rw [← (c6_amended_retry_policy (fun _ => true) 3).2.2.2.2.1 2 1500
       (by decide)]; decide⟩

/-- C9 counterexample: the claim that a failed content-directory removal
still removes the record from the index and persists it is false: with the
record `"s1"` present, the directory existing and `removeSync` throwing,
`deleteVibe` reports an error and leaves the index unchanged and
unpersisted, because the splice and the save sit after the throwing call in
the same `try` block. -/
theorem c9_counterexample :
    deleteVibe ["s1"] "s1" true true = (["s1"], false, .errorShown) ∧
    ¬ (∀ (index : List String) (id : String) (dirExists removeThrows : Bool),
        id ∈ index →
        (deleteVibe index id dirExists removeThrows).1 = index.erase id ∧
        (deleteVibe index id dirExists removeThrows).2.1 = true) := by
  refine ⟨by decide, fun h => ?_⟩
  have h2 := (h ["s1"] "s1" true true (by decide)).2
  rw [(by decide : (deleteVibe ["s1"] "s1" true true).2.1 = false)] at h2
  cases h2

/-- C9 amended: when the directory removal throws, `deleteVibe` aborts with
an error message: the record stays in the index and the index is not
re-persisted; the record is removed and persisted exactly when the removal
succeeds or the directory is already absent (and removal uses plain
`fs.removeSync`, not the retrying helper). -/
theorem c9_amended_delete (index : List String) (id : String)
    (dirExists removeThrows : Bool) (hmem : id ∈ index) :
    (dirExists = true → removeThrows = true →
      deleteVibe index id dirExists removeThrows = (index, false, .errorShown)) ∧
    (dirExists = false ∨ removeThrows = false →
      deleteVibe index id dirExists removeThrows
        = (index.erase id, true, .success)) := by
  unfold deleteVibe
  rw [if_pos hmem]
  constructor
  · rintro rfl rfl
    rfl
  · rintro (rfl | rfl)
    · rw [if_neg (by simp)]
    · rw [if_neg (by simp)]

/-- Witness for `c9_amended_delete` at a concrete index. -/
theorem c9_amended_delete_witness :
    deleteVibe ["s1"] "s1" true true = (["s1"], false, .errorShown) ∧
    deleteVibe ["s1"] "s1" true false
      = ((["s1"] : List String).erase "s1", true, .success) :=
  ⟨(c9_amended_delete ["s1"] "s1" true true (by decide)).1 rfl rfl,
   (c9_amended_delete ["s1"] "s1" true false (by decide)).2 (Or.inr rfl)⟩

/-- C7 counterexample: the claim that exclusion depends only on the path
relative to the walked root is false: the walker tests
`entryPath.includes(pattern)` on the absolute joined path, so the relative
entry `a.txt` under root `/build` is excluded by pattern `build` while the
same entry under root `/w` is not. -/
theorem c7_counterexample :
    entryExcluded ["build"] "a.txt" (joinPath "/build" ["a.txt"]) = true ∧
    entryExcluded ["build"] "a.txt" (joinPath "/w" ["a.txt"]) = false ∧
    ¬ (∀ (r1 r2 : String) (pats : List String) (rel : List String) (n : String),
        entryExcluded pats n (joinPath r1 (rel ++ [n]))
          = entryExcluded pats n (joinPath r2 (rel ++ [n]))) := by
  refine ⟨by decide, by decide, fun h => ?_⟩
  have h2 := h "/build" "/w" ["build"] [] "a.txt"
  rw [(by decide : entryExcluded ["build"] "a.txt"
        (joinPath "/build" (([] : List String) ++ ["a.txt"])) = true),
      (by decide : entryExcluded ["build"] "a.txt"
        (joinPath "/w" (([] : List String) ++ ["a.txt"])) = false)] at h2
  cases h2

/-- C7 amended: the walker excludes an entry exactly when some pattern
occurs as a substring of the root-joined absolute path of the entry (the
entry-name-equality disjunct is subsumed, since the name occurs verbatim in
the joined path); exclusion therefore depends on the walked root's own
path, not only on the path relative to it. -/
theorem c7_amended_walker_exclusion (root : String) (pats : List String)
    (rel : List String) (n : String) :
    entryExcluded pats n (joinPath root (rel ++ [n])) = true ↔
      ∃ pat ∈ pats, substr pat (joinPath root (rel ++ [n])) = true := by
  rw [entryExcluded_eq_pathExcluded]
  simp [pathExcluded, List.any_eq_true]

/-- Witness for `c7_amended_walker_exclusion` at a concrete root and entry. -/
theorem c7_amended_walker_exclusion_witness :
    entryExcluded ["build"] "a.txt" (joinPath "/build" (([] : List String) ++ ["a.txt"])) = true :=
  (c7_amended_walker_exclusion "/build" ["build"] [] "a.txt").2
    ⟨"build", by decide, by decide⟩

/-- C4 counterexample: the claim that the manifest is written only after all
per-file copies is false: `takeSimpleSnapshot` writes the manifest first
(source line 1094) and copies the files afterwards, so for a one-file
workspace the event trace is `[manifestWrite, fileCopy a.txt]` — a file
copy follows the manifest write. -/
theorem c4_counterexample :
    (takeSimpleSnapshot "/w" [] "s" "nm" 0
      (.dir (.cons "a.txt" (.file "1") .nil))).events
      = [.manifestWrite, .fileCopy ["a.txt"]] ∧
    ¬ (∀ (W : String) (custom : List String) (idStr nameStr : String)
        (ts : Nat) (T : FSTree) (i j : Nat) (p : List String),
        (takeSimpleSnapshot W custom idStr nameStr ts T).events.get? i
          = some .manifestWrite →
        (takeSimpleSnapshot W custom idStr nameStr ts T).events.get? j
          = some (.fileCopy p) →
        j < i) := by
  refine ⟨by decide, fun h => ?_⟩
  have h2 := h "/w" [] "s" "nm" 0 (.dir (.cons "a.txt" (.file "1") .nil))
    0 1 ["a.txt"] (by decide) (by decide)
  omega

/-- C4 amended: within every capture the manifest write is the first
snapshot-directory operation: it precedes every per-file copy attempt, so
every file copy happens strictly after the manifest write (the opposite of
the claimed ordering). -/
theorem c4_amended_manifest_first (W : String) (custom : List String)
    (idStr nameStr : String) (ts : Nat) (T : FSTree) :
    (takeSimpleSnapshot W custom idStr nameStr ts T).events.get? 0
        = some .manifestWrite ∧
    ∀ j p, (takeSimpleSnapshot W custom idStr nameStr ts T).events.get? j
        = some (.fileCopy p) → 0 < j := by
  rw [takeSimpleSnapshot_events]
  refine ⟨rfl, ?_⟩
  intro j p hj
  cases j with
  | zero => rw [List.get?_cons_zero] at hj; cases hj
  | succ k => exact Nat.succ_pos k

/-- Witness for `c4_amended_manifest_first` on a concrete capture. -/
theorem c4_amended_manifest_first_witness :
    (takeSimpleSnapshot "/w" [] "s" "nm" 0
      (.dir (.cons "a.txt" (.file "1") .nil))).events.get? 0
        = some .manifestWrite ∧
    (0 : Nat) < 1 :=
  ⟨(c4_amended_manifest_first "/w" [] "s" "nm" 0
      (.dir (.cons "a.txt" (.file "1") .nil))).1,
   (c4_amended_manifest_first "/w" [] "s" "nm" 0
      (.dir (.cons "a.txt" (.file "1") .nil))).2 1 ["a.txt"] (by decide)⟩

/-- C8 counterexample: the claim that a restore whose snapshot id has no
index record fails with NotFound before any destructive action is false for
the primary restore: it never consults the index. With an empty index but an
existing content directory for id `s`, the restore proceeds, reports
success, deletes the live file `b.txt` and writes the snapshot file
`a.txt`. -/
theorem c8_counterexample :
    (restoreSimpleSnapshot "/w" "/w/.vibesync" [] []
      (fun i => if i = "s"
        then some (takeSimpleSnapshot "/w" [] "s" "nm" 0
          (.dir (.cons "a.txt" (.file "1") .nil))).snap
        else none)
      "s" (.dir (.cons "b.txt" (.file "2") .nil))).ok = true ∧
    (restoreSimpleSnapshot "/w" "/w/.vibesync" [] []
      (fun i => if i = "s"
        then some (takeSimpleSnapshot "/w" [] "s" "nm" 0
          (.dir (.cons "a.txt" (.file "1") .nil))).snap
        else none)
      "s" (.dir (.cons "b.txt" (.file "2") .nil))).tree.lookup ["b.txt"]
        = none ∧
    ¬ (∀ (W vd : String) (custom index : List String)
        (store : String → Option SnapState) (id : String) (live : FSTree),
        id ∉ index →
        (restoreSimpleSnapshot W vd custom index store id live).ok = false) := by
  refine ⟨by decide, by decide, fun h => ?_⟩
  have h2 := h "/w" "/w/.vibesync" [] []
    (fun i => if i = "s"
      then some (takeSimpleSnapshot "/w" [] "s" "nm" 0
        (.dir (.cons "a.txt" (.file "1") .nil))).snap
      else none)
    "s" (.dir (.cons "b.txt" (.file "2") .nil)) (by simp)
  rw [(by decide : (restoreSimpleSnapshot "/w" "/w/.vibesync" [] []
      (fun i => if i = "s"
        then some (takeSimpleSnapshot "/w" [] "s" "nm" 0
          (.dir (.cons "a.txt" (.file "1") .nil))).snap
        else none)
      "s" (.dir (.cons "b.txt" (.file "2") .nil))).ok = true)] at h2
  cases h2

/-- C8 amended: a restore whose content directory is missing aborts with an
error before any destructive action, in both restore revisions; the staged
revision additionally aborts when the id has no index record, but the
primary revision never consults the index, so a dangling id whose content
directory exists proceeds destructively. -/
theorem c8_amended_notfound_guards (W vd : String) (custom : List String)
    (index : List String) (store : String → Option SnapState) (id : String)
    (live : FSTree) :
    (store id = none →
      restoreSimpleSnapshot W vd custom index store id live
        = ⟨false, live, 0, 0, 0⟩) ∧
    (store id = none →
      restoreStaged vd custom index store id live
        = ⟨false, live, 0, 0, 0, 0, 0⟩) ∧
    (id ∉ index →
      restoreStaged vd custom index store id live
        = ⟨false, live, 0, 0, 0, 0, 0⟩) := by
  refine ⟨fun hs => restoreSimpleSnapshot_no_dir W vd custom index store id
    live hs, fun hs => ?_, fun hmem => ?_⟩
  · unfold restoreStaged
    by_cases hmem : id ∈ index
    · rw [if_pos hmem, hs]
    · rw [if_neg hmem]
  · unfold restoreStaged
    rw [if_neg hmem]

/-- Witness for `c8_amended_notfound_guards` at a concrete missing store. -/
theorem c8_amended_notfound_guards_witness :
    restoreSimpleSnapshot "/w" "/w/.vibesync" [] [] (fun _ => none) "s"
      (.dir .nil) = ⟨false, .dir .nil, 0, 0, 0⟩ ∧
    restoreStaged "/w/.vibesync" [] [] (fun _ => none) "s" (.dir .nil)
      = ⟨false, .dir .nil, 0, 0, 0, 0, 0⟩ :=
  ⟨(c8_amended_notfound_guards "/w" "/w/.vibesync" [] [] (fun _ => none) "s"
      (.dir .nil)).1 rfl,
   (c8_amended_notfound_guards "/w" "/w/.vibesync" [] [] (fun _ => none) "s"
      (.dir .nil)).2.2 (by simp)⟩

/-- C3 counterexample: the claim that a restore with an absent or unreadable
manifest proceeds with the caller-supplied pattern set is false for the
primary restore: its metadata read of the same manifest file (source lines
1226-1239) aborts the restore first.  With a content directory holding
`a.txt` but no readable manifest, the restore reports failure and the live
tree is untouched. -/
theorem c3_counterexample :
    (restoreSimpleSnapshot "/w" "/w/.vibesync" [] []
      (fun i => if i = "s"
        then some ⟨.dir (.cons "a.txt" (.file "1") .nil), none⟩
        else none)
      "s" (.dir (.cons "b.txt" (.file "2") .nil))).ok = false ∧
    (restoreSimpleSnapshot "/w" "/w/.vibesync" [] []
      (fun i => if i = "s"
        then some ⟨.dir (.cons "a.txt" (.file "1") .nil), none⟩
        else none)
      "s" (.dir (.cons "b.txt" (.file "2") .nil))).tree.lookup ["b.txt"]
        = some "2" ∧
    ¬ (∀ (W vd : String) (custom index : List String)
        (store : String → Option SnapState) (id : String) (live : FSTree)
        (snap : SnapState), store id = some snap → snap.manifest = none →
        (restoreSimpleSnapshot W vd custom index store id live).ok = true) := by
  refine ⟨by decide, by decide, fun h => ?_⟩
  have h2 := h "/w" "/w/.vibesync" [] []
    (fun i => if i = "s"
      then some ⟨.dir (.cons "a.txt" (.file "1") .nil), none⟩
      else none)
    "s" (.dir (.cons "b.txt" (.file "2") .nil))
    ⟨.dir (.cons "a.txt" (.file "1") .nil), none⟩ rfl rfl
  rw [(by decide : (restoreSimpleSnapshot "/w" "/w/.vibesync" [] []
      (fun i => if i = "s"
        then some ⟨.dir (.cons "a.txt" (.file "1") .nil), none⟩
        else none)
      "s" (.dir (.cons "b.txt" (.file "2") .nil))).ok = false)] at h2
  cases h2

/-- C3 amended: when the manifest is readable and its `ignorePatterns` field
is an array, that pattern set supersedes the caller-supplied one — the whole
restore outcome is independent of the caller's patterns; when the manifest
is absent or unreadable, the primary restore does not proceed in degraded
mode but aborts with an error before any file is deleted or copied.  (The
staged revision parses the manifest but never applies its patterns.) -/
theorem c3_amended_manifest_patterns (W vd : String)
    (custom custom2 index : List String) (store : String → Option SnapState)
    (id : String) (live : FSTree) :
    (∀ snap mani ps, store id = some snap → snap.manifest = some mani →
      mani.ignorePatterns = some ps →
      restoreSimpleSnapshot W vd custom index store id live
        = restoreSimpleSnapshot W vd custom2 index store id live) ∧
    (∀ snap, store id = some snap → snap.manifest = none →
      restoreSimpleSnapshot W vd custom index store id live
        = ⟨false, live, 0, 0, 0⟩) := by
  constructor
  · intro snap mani ps hs hm hp
    rw [restoreSimpleSnapshot_run_eq W vd custom index store id live hs hm hp,
      restoreSimpleSnapshot_run_eq W vd custom2 index store id live hs hm hp]
  · intro snap hs hm
    exact restoreSimpleSnapshot_no_manifest W vd custom index store id live hs hm

/-- Witness for `c3_amended_manifest_patterns`: with a manifest pinning the
pattern set, two restores under different caller patterns coincide; with no
manifest, the restore aborts unchanged. -/
theorem c3_amended_manifest_patterns_witness :
    restoreSimpleSnapshot "/w" "/w/.vibesync" [] []
      (fun i => if i = "s"
        then some ⟨.dir (.cons "a.txt" (.file "1") .nil),
          some ⟨"s", "nm", 0, some defaultIgnorePatterns⟩⟩
        else none)
      "s" (.dir .nil)
      = restoreSimpleSnapshot "/w" "/w/.vibesync" ["extra"] []
        (fun i => if i = "s"
          then some ⟨.dir (.cons "a.txt" (.file "1") .nil),
            some ⟨"s", "nm", 0, some defaultIgnorePatterns⟩⟩
          else none)
        "s" (.dir .nil) ∧
    restoreSimpleSnapshot "/w" "/w/.vibesync" ["extra"] []
      (fun i => if i = "s" then some ⟨.dir .nil, none⟩ else none)
      "s" (.dir .nil)
      = ⟨false, .dir .nil, 0, 0, 0⟩ :=
  ⟨(c3_amended_manifest_patterns "/w" "/w/.vibesync" [] ["extra"] []
      (fun i => if i = "s"
        then some ⟨.dir (.cons "a.txt" (.file "1") .nil),
          some ⟨"s", "nm", 0, some defaultIgnorePatterns⟩⟩
        else none)
      "s" (.dir .nil)).1
    ⟨.dir (.cons "a.txt" (.file "1") .nil),
      some ⟨"s", "nm", 0, some defaultIgnorePatterns⟩⟩
    ⟨"s", "nm", 0, some defaultIgnorePatterns⟩
    defaultIgnorePatterns rfl rfl rfl,
   (c3_amended_manifest_patterns "/w" "/w/.vibesync" ["extra"] [] []
      (fun i => if i = "s" then some ⟨.dir .nil, none⟩ else none)
      "s" (.dir .nil)).2
    ⟨.dir .nil, none⟩ rfl rfl⟩

/-- C2 counterexample: the staged restore revision violates exclusion
stability at depth.  Its STEP 5 removes every top-level workspace entry whose
NAME is not literally in the pattern list, so a file matching a pattern at a
deeper level (here `sub/node_modules/x`, matching `node_modules`) is deleted
together with its non-excluded top-level ancestor `sub`. -/
theorem c2_counterexample :
    pathExcluded "/w" (defaultIgnorePatterns ++ [])
      ["sub", "node_modules", "x"] = true ∧
    (FSTree.dir (.cons "sub" (.dir (.cons "a" (.file "2")
        (.cons "node_modules" (.dir (.cons "x" (.file "3") .nil)) .nil)))
        .nil)).lookup ["sub", "node_modules", "x"] = some "3" ∧
    (restoreStaged "/w/.vibesync" [] ["s"]
      (fun i => if i = "s"
        then some (takeSimpleSnapshot "/w" [] "s" "nm" 0
          (.dir (.cons "sub" (.dir (.cons "a" (.file "1") .nil)) .nil))).snap
        else none)
      "s"
      (.dir (.cons "sub" (.dir (.cons "a" (.file "2")
        (.cons "node_modules" (.dir (.cons "x" (.file "3") .nil)) .nil)))
        .nil))).ok = true ∧
    (restoreStaged "/w/.vibesync" [] ["s"]
      (fun i => if i = "s"
        then some (takeSimpleSnapshot "/w" [] "s" "nm" 0
          (.dir (.cons "sub" (.dir (.cons "a" (.file "1") .nil)) .nil))).snap
        else none)
      "s"
      (.dir (.cons "sub" (.dir (.cons "a" (.file "2")
        (.cons "node_modules" (.dir (.cons "x" (.file "3") .nil)) .nil)))
        .nil))).tree.lookup ["sub", "node_modules", "x"] = none ∧
    ¬ (∀ (W vd : String) (custom index : List String)
        (store : String → Option SnapState) (id : String) (live : FSTree)
        (p : List String) (c : String), live.lookup p = some c →
        pathExcluded W (defaultIgnorePatterns ++ custom) p = true →
        (restoreStaged vd custom index store id live).tree.lookup p
          = some c) := by
  refine ⟨by decide, by decide, by decide, by decide, fun h => ?_⟩
  have h2 := h "/w" "/w/.vibesync" [] ["s"]
    (fun i => if i = "s"
      then some (takeSimpleSnapshot "/w" [] "s" "nm" 0
        (.dir (.cons "sub" (.dir (.cons "a" (.file "1") .nil)) .nil))).snap
      else none)
    "s"
    (.dir (.cons "sub" (.dir (.cons "a" (.file "2")
      (.cons "node_modules" (.dir (.cons "x" (.file "3") .nil)) .nil)))
      .nil))
    ["sub", "node_modules", "x"] "3" (by decide) (by decide)
  rw [(by decide : (restoreStaged "/w/.vibesync" [] ["s"]
      (fun i => if i = "s"
        then some (takeSimpleSnapshot "/w" [] "s" "nm" 0
          (.dir (.cons "sub" (.dir (.cons "a" (.file "1") .nil)) .nil))).snap
        else none)
      "s"
      (.dir (.cons "sub" (.dir (.cons "a" (.file "2")
        (.cons "node_modules" (.dir (.cons "x" (.file "3") .nil)) .nil)))
        .nil))).tree.lookup ["sub", "node_modules", "x"] = none)] at h2
  exact Option.noConfusion h2

/-- C2 amended: the PRIMARY restore revision does satisfy exclusion
stability at every depth, for a capture-produced snapshot: any live-tree
file whose root-joined path matches the effective (manifest-pinned) pattern
set survives the restore with unchanged content, because the delete phase
only removes walker-enumerated (hence non-excluded) paths — none of which
can be a prefix of an existing excluded file — and the copy phase only
writes walker-enumerated snapshot paths, which the excluded path is not
among. -/
theorem c2_amended_exclusion_stability (W vd : String)
    (custom index : List String) (idS nameStr : String) (ts : Nat)
    (T M : FSTree) (store : String → Option SnapState)
    (hwfT : T.wf = true) (hwfM : M.wf = true)
    (hs : store idS = some (takeSimpleSnapshot W custom idS nameStr ts T).snap)
    (p : List String) (c : String) (hp : M.lookup p = some c)
    (hexcl : pathExcluded W (defaultIgnorePatterns ++ custom) p = true) :
    (restoreSimpleSnapshot W vd custom index store idS M).tree.lookup p
      = some c := by
  have htree : (restoreSimpleSnapshot W vd custom index store idS M).tree
      = (copyPhase (takeSimpleSnapshot W custom idS nameStr ts T).snap.files
          (getFilesRecursively (joinPath vd [idS])
            [manifestFileName, vibesyncBaseName]
            (takeSimpleSnapshot W custom idS nameStr ts T).snap.files [] 0 100)
          (deletePhase (getFilesRecursively W (defaultIgnorePatterns ++ custom)
            M [] 0 100) M).1).1 := by
    rw [restoreSimpleSnapshot_run_eq W vd custom index store idS M hs
      (takeSimpleSnapshot_manifest W custom idS nameStr ts T) rfl]
  have hnopre : ¬ ∃ q ∈ getFilesRecursively W (defaultIgnorePatterns ++ custom)
      M [] 0 100, q <+: p := by
    rintro ⟨q, hq, hqp⟩
    obtain ⟨⟨cq, hlookq⟩, hqne, _, hqexcl⟩ := (mem_getFiles_top hwfM).1 hq
    by_cases hqeq : q = p
    · subst hqeq
      rw [hqexcl] at hexcl
      cases hexcl
    · rw [lookup_strict_prefix_file hlookq hqp hqeq] at hp
      exact Option.noConfusion hp
  have hdel : (deletePhase (getFilesRecursively W
      (defaultIgnorePatterns ++ custom) M [] 0 100) M).1.lookup p = some c := by
    rw [deletePhase_lookup _ M hwfM
      (fun q hq => ((mem_getFiles_top hwfM).1 hq).2.1) p, if_neg hnopre, hp]
  have hwfS : (takeSimpleSnapshot W custom idS nameStr ts T).snap.files.wf
      = true := by
    rw [takeSimpleSnapshot_snap_files]
    exact wf_captureCopy T _ snapBase snapBase_wf
  have hnotin : p ∉ getFilesRecursively (joinPath vd [idS])
      [manifestFileName, vibesyncBaseName]
      (takeSimpleSnapshot W custom idS nameStr ts T).snap.files [] 0 100 := by
    intro hmem
    obtain ⟨⟨cs, hlooks⟩, hpne2, _, hpexcl2⟩ := (mem_getFiles_top hwfS).1 hmem
    rw [takeSimpleSnapshot_snap_files] at hlooks
    rcases captureCopy_lookup_some_inv T _ snapBase p cs hlooks with hin | hbase
    · obtain ⟨_, _, _, hwexcl⟩ := (mem_getFiles_top hwfT).1 hin
      rw [hwexcl] at hexcl
      cases hexcl
    · rw [snapBase_lookup p] at hbase
      by_cases hpm : p = [manifestFileName]
      · rw [pathExcluded_of_seg_substr
          (show manifestFileName ∈ p by rw [hpm]; exact List.mem_singleton.2 rfl)
          (show substr manifestFileName manifestFileName = true by decide)
          (List.mem_cons_self manifestFileName [vibesyncBaseName])] at hpexcl2
        cases hpexcl2
      · rw [if_neg hpm] at hbase
        exact Option.noConfusion hbase
  rw [htree]
  exact (copyPhase_lookup_notin _ _ _ p hnotin).trans hdel

/-- Witness for `c2_amended_exclusion_stability`: a concrete primary restore
leaves the excluded live file `node_modules/x` in place. -/
theorem c2_amended_exclusion_stability_witness :
    (restoreSimpleSnapshot "/w" "/w/.vibesync" [] []
      (fun i => if i = "s"
        then some (takeSimpleSnapshot "/w" [] "s" "nm" 0
          (.dir (.cons "a.txt" (.file "1") .nil))).snap
        else none)
      "s"
      (.dir (.cons "node_modules" (.dir (.cons "x" (.file "3") .nil))
        .nil))).tree.lookup ["node_modules", "x"] = some "3" :=
  c2_amended_exclusion_stability "/w" "/w/.vibesync" [] [] "s" "nm" 0
    (.dir (.cons "a.txt" (.file "1") .nil))
    (.dir (.cons "node_modules" (.dir (.cons "x" (.file "3") .nil)) .nil))
    (fun i => if i = "s"
      then some (takeSimpleSnapshot "/w" [] "s" "nm" 0
        (.dir (.cons "a.txt" (.file "1") .nil))).snap
      else none)
    (by decide) (by decide) rfl ["node_modules", "x"] "3" (by decide) (by decide)

/-- C1 counterexample: the round-trip does NOT restrict to the non-excluded
files: a restore never deletes excluded live files, so the restored tree can
contain files (here the mutated copy's `node_modules/x`) that are absent
from T restricted to the non-matching files.  The claimed byte-identity with
the restriction of T therefore fails. -/
theorem c1_counterexample :
    pathExcluded "/w" (defaultIgnorePatterns ++ [])
      ["node_modules", "x"] = true ∧
    (restoreSimpleSnapshot "/w" "/w/.vibesync" [] []
      (fun i => if i = "s"
        then some (takeSimpleSnapshot "/w" [] "s" "nm" 0
          (.dir (.cons "a.txt" (.file "1") .nil))).snap
        else none)
      "s"
      (.dir (.cons "node_modules" (.dir (.cons "x" (.file "3") .nil))
        .nil))).ok = true ∧
    (restoreSimpleSnapshot "/w" "/w/.vibesync" [] []
      (fun i => if i = "s"
        then some (takeSimpleSnapshot "/w" [] "s" "nm" 0
          (.dir (.cons "a.txt" (.file "1") .nil))).snap
        else none)
      "s"
      (.dir (.cons "node_modules" (.dir (.cons "x" (.file "3") .nil))
        .nil))).tree.lookup ["node_modules", "x"] = some "3" ∧
    (FSTree.dir (.cons "a.txt" (.file "1") .nil)).lookup
      ["node_modules", "x"] = none ∧
    ¬ (∀ (W vd : String) (custom index : List String) (idS nameStr : String)
        (ts : Nat) (T M : FSTree) (store : String → Option SnapState),
        store idS = some (takeSimpleSnapshot W custom idS nameStr ts T).snap →
        ∀ p, (restoreSimpleSnapshot W vd custom index store idS M).tree.lookup p
          = if pathExcluded W (defaultIgnorePatterns ++ custom) p = true
            then none else T.lookup p) := by
  refine ⟨by decide, by decide, by decide, by decide, fun h => ?_⟩
  have h2 := h "/w" "/w/.vibesync" [] [] "s" "nm" 0
    (.dir (.cons "a.txt" (.file "1") .nil))
    (.dir (.cons "node_modules" (.dir (.cons "x" (.file "3") .nil)) .nil))
    (fun i => if i = "s"
      then some (takeSimpleSnapshot "/w" [] "s" "nm" 0
        (.dir (.cons "a.txt" (.file "1") .nil))).snap
      else none)
    rfl ["node_modules", "x"]
  rw [if_pos (by decide), (by decide : (restoreSimpleSnapshot "/w" "/w/.vibesync"
      [] []
      (fun i => if i = "s"
        then some (takeSimpleSnapshot "/w" [] "s" "nm" 0
          (.dir (.cons "a.txt" (.file "1") .nil))).snap
        else none)
      "s"
      (.dir (.cons "node_modules" (.dir (.cons "x" (.file "3") .nil))
        .nil))).tree.lookup ["node_modules", "x"] = some "3")] at h2
  exact Option.noConfusion h2

/-- C1 amended: the round-trip holds on the non-excluded paths.  For a
capture of T that copied without errors and a primary restore onto an
arbitrary well-formed mutated copy M whose copy phase reported no errors,
every path within the walker's depth bound that is not excluded by the
effective pattern set (and not spuriously excluded by the snapshot-directory
walk) resolves in the restored tree exactly as in T.  On excluded paths the
restored tree keeps M's content instead of the claimed restriction of T. -/
theorem c1_amended_roundtrip_nonexcluded (W vd : String)
    (custom index : List String) (idS nameStr : String) (ts : Nat)
    (T M : FSTree) (store : String → Option SnapState)
    (hwfT : T.wf = true) (hwfM : M.wf = true)
    (hs : store idS = some (takeSimpleSnapshot W custom idS nameStr ts T).snap)
    (hcap : (takeSimpleSnapshot W custom idS nameStr ts T).errors = 0)
    (hres : (restoreSimpleSnapshot W vd custom index store idS M).copyErrors = 0)
    (p : List String) (hpne : p ≠ []) (hplen : p.length ≤ 101)
    (hpexcl : pathExcluded W (defaultIgnorePatterns ++ custom) p = false)
    (hsnap : pathExcluded (joinPath vd [idS])
      [manifestFileName, vibesyncBaseName] p = false) :
    (restoreSimpleSnapshot W vd custom index store idS M).tree.lookup p
      = T.lookup p := by
  have hwfS : (takeSimpleSnapshot W custom idS nameStr ts T).snap.files.wf
      = true := by
    rw [takeSimpleSnapshot_snap_files]
    exact wf_captureCopy T _ snapBase snapBase_wf
  have hcap2 : (captureCopy T
      (getFilesRecursively W (defaultIgnorePatterns ++ custom) T [] 0 100)
      snapBase).2.2.2 = 0 := by
    rw [takeSimpleSnapshot_errors] at hcap
    exact hcap
  have hSlook : ∀ q,
      (takeSimpleSnapshot W custom idS nameStr ts T).snap.files.lookup q
        = if q ∈ getFilesRecursively W (defaultIgnorePatterns ++ custom)
              T [] 0 100
          then T.lookup q else snapBase.lookup q := by
    intro q
    rw [takeSimpleSnapshot_snap_files]
    exact captureCopy_lookup T _ snapBase hcap2 q
  have htree : (restoreSimpleSnapshot W vd custom index store idS M).tree
      = (copyPhase (takeSimpleSnapshot W custom idS nameStr ts T).snap.files
          (getFilesRecursively (joinPath vd [idS])
            [manifestFileName, vibesyncBaseName]
            (takeSimpleSnapshot W custom idS nameStr ts T).snap.files [] 0 100)
          (deletePhase (getFilesRecursively W (defaultIgnorePatterns ++ custom)
            M [] 0 100) M).1).1 := by
    rw [restoreSimpleSnapshot_run_eq W vd custom index store idS M hs
      (takeSimpleSnapshot_manifest W custom idS nameStr ts T) rfl]
  have hcp2 : (copyPhase (takeSimpleSnapshot W custom idS nameStr ts T).snap.files
      (getFilesRecursively (joinPath vd [idS])
        [manifestFileName, vibesyncBaseName]
        (takeSimpleSnapshot W custom idS nameStr ts T).snap.files [] 0 100)
      (deletePhase (getFilesRecursively W (defaultIgnorePatterns ++ custom)
        M [] 0 100) M).1).2.2 = 0 := by
    rw [restoreSimpleSnapshot_run_eq W vd custom index store idS M hs
      (takeSimpleSnapshot_manifest W custom idS nameStr ts T) rfl] at hres
    exact hres
  have hwfDel : (deletePhase (getFilesRecursively W
      (defaultIgnorePatterns ++ custom) M [] 0 100) M).1.wf = true :=
    wf_deletePhase _ M hwfM
  have hskip := notCopySkip_of_notExcluded hpexcl
  rw [htree, copyPhase_lookup _ _ _ hwfDel hcp2 p]
  cases hT : T.lookup p with
  | some c =>
    have hmemCap : p ∈ getFilesRecursively W (defaultIgnorePatterns ++ custom)
        T [] 0 100 :=
      (mem_getFiles_top hwfT).2 ⟨⟨c, hT⟩, hpne, (by omega), hpexcl⟩
    have hmemSnap : p ∈ getFilesRecursively (joinPath vd [idS])
        [manifestFileName, vibesyncBaseName]
        (takeSimpleSnapshot W custom idS nameStr ts T).snap.files [] 0 100 :=
      (mem_getFiles_top hwfS).2 ⟨⟨c, by rw [hSlook p, if_pos hmemCap, hT]⟩,
        hpne, (by omega), hsnap⟩
    rw [if_pos ⟨hmemSnap, hskip⟩, hSlook p, if_pos hmemCap, hT]
  | none =>
    have hnotCap : p ∉ getFilesRecursively W (defaultIgnorePatterns ++ custom)
        T [] 0 100 := by
      intro hmem
      obtain ⟨⟨c, hc⟩, _⟩ := (mem_getFiles_top hwfT).1 hmem
      rw [hT] at hc
      exact Option.noConfusion hc
    have hpm : p ≠ [manifestFileName] := by
      intro hpm
      exact hskip (Or.inl (by rw [hpm]; rfl))
    have hSnone : (takeSimpleSnapshot W custom idS nameStr
        ts T).snap.files.lookup p = none := by
      rw [hSlook p, if_neg hnotCap, snapBase_lookup p, if_neg hpm]
    have hnotSnap : p ∉ getFilesRecursively (joinPath vd [idS])
        [manifestFileName, vibesyncBaseName]
        (takeSimpleSnapshot W custom idS nameStr ts T).snap.files [] 0 100 := by
      intro hmem
      obtain ⟨⟨c, hc⟩, _⟩ := (mem_getFiles_top hwfS).1 hmem
      rw [hSnone] at hc
      exact Option.noConfusion hc
    rw [if_neg (fun hC => hnotSnap hC.1)]
    rw [deletePhase_lookup _ M hwfM
      (fun q hq => ((mem_getFiles_top hwfM).1 hq).2.1) p]
    cases hM : M.lookup p with
    | some c2 =>
      have hmemWs : p ∈ getFilesRecursively W (defaultIgnorePatterns ++ custom)
          M [] 0 100 :=
        (mem_getFiles_top hwfM).2 ⟨⟨c2, hM⟩, hpne, (by omega), hpexcl⟩
      rw [if_pos (show ∃ q ∈ getFilesRecursively W
          (defaultIgnorePatterns ++ custom) M [] 0 100, q <+: p from
        ⟨p, hmemWs, List.prefix_refl p⟩)]
    | none =>
      by_cases hEx : ∃ q ∈ getFilesRecursively W
          (defaultIgnorePatterns ++ custom) M [] 0 100, q <+: p
      · rw [if_pos hEx]
      · rw [if_neg hEx]

/-- Witness for `c1_amended_roundtrip_nonexcluded`: a concrete round-trip
restores the non-excluded file `a.txt` to its captured content on a mutated
copy that had changed it. -/
theorem c1_amended_roundtrip_nonexcluded_witness :
    (restoreSimpleSnapshot "/w" "/w/.vibesync" [] []
      (fun i => if i = "s"
        then some (takeSimpleSnapshot "/w" [] "s" "nm" 0
          (.dir (.cons "a.txt" (.file "1") .nil))).snap
        else none)
      "s" (.dir (.cons "a.txt" (.file "9") .nil))).tree.lookup ["a.txt"]
      = (FSTree.dir (.cons "a.txt" (.file "1") .nil)).lookup ["a.txt"] :=
  c1_amended_roundtrip_nonexcluded "/w" "/w/.vibesync" [] [] "s" "nm" 0
    (.dir (.cons "a.txt" (.file "1") .nil))
    (.dir (.cons "a.txt" (.file "9") .nil))
    (fun i => if i = "s"
      then some (takeSimpleSnapshot "/w" [] "s" "nm" 0
        (.dir (.cons "a.txt" (.file "1") .nil))).snap
      else none)
    (by decide) (by decide) rfl (by decide) (by decide) ["a.txt"]
    (by decide) (by decide) (by decide) (by decide)
